import Mathlib

/-!
Shallow embedding of the mod lifecycle manager of `gui.py`
(`Sternenflame/modio-mod-manager`).

The effectful Python code is embedded as pure Lean functions:

* the on-disk layout is a list of `(directory, fileName)` pairs (`FS`);
* the mod database (`self.mod_db["mods"]`, a Python dict keyed by
  `local_name`) is an insertion-ordered association list (`DB`);
* calls into the environment (the network downloader `download_mod`,
  `shutil.move` / `Path.rename` / `shutil.copy2` / `Path.unlink`, which
  can fail for reasons outside the program) are given their outcomes by
  explicit oracle parameters (`Bool` flags, per-call), and the pure state
  transformation each branch of the Python code performs on `FS`/`DB` is
  reproduced faithfully;
* Python `int()` truncation of the (nonnegative) float progress values is
  embedded as `Rat.floor` on exact rational arithmetic.
-/

namespace ModManager

/-- Does the character list `hay` start with `needle`? -/
def startsWithL : List Char → List Char → Bool
  | [], _ => true
  | _ :: _, [] => false
  | a :: as, b :: bs => a == b && startsWithL as bs

/-- Does `hay` contain `needle` as a contiguous segment?  This is the
matching performed by the Python glob pattern `*needle*`. -/
def containsL (needle : List Char) : List Char → Bool
  | [] => needle.isEmpty
  | c :: t => startsWithL needle (c :: t) || containsL needle t

/-- String containment, the semantics of the glob `*needle*` used
throughout `gui.py` to find the files belonging to a mod record. -/
def strContains (hay needle : String) : Bool :=
  containsL needle.toList hay.toList

/-- One record of `mod_db["mods"]` (the dict built in
`download_mod_from_url`, lines 444-454 of `gui.py`).  Timestamps are
abstracted as `Nat`. -/
structure ModRecord where
  name : String
  local_name : String
  zip_name : String
  installed_date : Nat
  updated_date : Nat
  profile : String
  enabled : Bool
  installed_path : String
  url : String
deriving Repr, DecidableEq

/-- The mod database: a Python dict keyed by local file name, i.e. an
insertion-ordered association list with unique keys. -/
abbrev DB := List (String × ModRecord)

/-- The file system, as the set (list) of `(directory, fileName)` pairs
that exist.  Only flat directory contents matter to the manager. -/
abbrev FS := List (String × String)

/-- Python dict lookup `db[k]`. -/
def dbFind (db : DB) (k : String) : Option ModRecord :=
  (db.find? (fun p => p.1 == k)).map (·.2)

/-- Python dict assignment `db[k] = v`: update in place if the key
exists, append otherwise (insertion order semantics). -/
def dbInsert : DB → String → ModRecord → DB
  | [], k, v => [(k, v)]
  | p :: rest, k, v =>
      if p.1 == k then (k, v) :: rest else p :: dbInsert rest k v

/-- Does file `f` exist in directory `d`? (`Path.is_file` / `exists`). -/
def fsHas (fs : FS) (d f : String) : Bool :=
  fs.any (fun e => e.1 == d && e.2 == f)

/-- Remove file `f` from directory `d` (`Path.unlink(missing_ok=True)`). -/
def fsRemove (fs : FS) (d f : String) : FS :=
  fs.filter (fun e => !(e.1 == d && e.2 == f))

/-- Create/overwrite file `f` in directory `d` (`open(..., "wb")`,
`shutil.copy2` onto the destination). -/
def fsAdd (fs : FS) (d f : String) : FS :=
  fsRemove fs d f ++ [(d, f)]

/-- Move a file, overwriting any destination file of the same name
(`shutil.move` / unlink-then-`rename` as used by `gui.py`). -/
def fsMove (fs : FS) (sd sf dd df : String) : FS :=
  fsAdd (fsRemove fs sd sf) dd df

/-- `list(dir.glob(f"*{name}*"))`: the files of directory `d` whose name
contains `name`, in file-system order. -/
def fsGlob (fs : FS) (d name : String) : List String :=
  (fs.filter (fun e => e.1 == d && strContains e.2 name)).map (·.2)

/-- The per-profile disabled subdirectory `installedPath/.disabledmods`. -/
def disabledDirOf (profileDir : String) : String :=
  profileDir ++ "/.disabledmods"

/-!  ## `ModDownloaderGUI.safe_file_move` (gui.py lines 1564-1586)

```python
try:
    dst.parent.mkdir(parents=True, exist_ok=True)
    if dst.exists():
        dst.unlink()
    src.rename(dst)
    return True
except Exception:
    try:
        shutil.copy2(src, dst)
        src.unlink()
        return True
    except Exception:
        return False
```

The three filesystem calls that can fail for environmental reasons are
given oracle outcomes: `renameOk` (the first `try` block up to and
including `src.rename`), `copyOk` (`shutil.copy2`), `unlinkOk`
(`src.unlink` in the fallback).  Note that when the copy succeeds but the
source unlink raises, the exception is caught by the second `except` and
the function returns `False`, with both the destination copy and the
source file present on disk. -/

/-- Result: the file system afterwards and the returned boolean. -/
def safe_file_move (fs : FS) (sd sf dd df : String)
    (renameOk copyOk unlinkOk : Bool) : FS × Bool :=
  -- `dst.parent.mkdir` is a no-op in this model; `dst.unlink()` runs
  -- before the rename attempt.
  let fs1 := fsRemove fs dd df
  if renameOk then
    (fsAdd (fsRemove fs1 sd sf) dd df, true)
  else if copyOk then
    if unlinkOk then
      (fsAdd (fsRemove fs1 sd sf) dd df, true)
    else
      -- copy succeeded, unlink raised: caught, returns False; the
      -- destination copy stays and the source stays.
      (fsAdd fs1 dd df, false)
  else
    (fs1, false)

/-!  ## `ModDownloaderGUI.save_mod_db` (gui.py lines 1190-1204)

```python
try:
    if self.db_file.exists():
        backup_path = self.db_file.with_suffix('.json.bak')
        shutil.copy2(self.db_file, backup_path)
    with open(self.db_file, 'w') as f:
        json.dump(self.mod_db, f, indent=4)
except Exception as e:
    self.logger.error(...)
    QMessageBox.warning(...)
```

One `try` covers both the backup copy and the write of the new
contents, so an exception raised by the backup copy skips the write. -/

structure SaveResult where
  /-- Was the `.bak` backup file written? -/
  backupWritten : Bool
  /-- Were the new database contents written to the database file? -/
  newContentsWritten : Bool
  /-- Was the failure warning dialog shown? -/
  warned : Bool
deriving Repr, DecidableEq

/-- Oracles: `dbFileExists` (`self.db_file.exists()`), `backupOk`
(`shutil.copy2` succeeds), `writeOk` (the `open`/`json.dump` succeeds). -/
def save_mod_db (dbFileExists backupOk writeOk : Bool) : SaveResult :=
  if dbFileExists && !backupOk then
    -- the backup copy raised: the write is never reached
    { backupWritten := false, newContentsWritten := false, warned := true }
  else
    { backupWritten := dbFileExists
      newContentsWritten := writeOk
      warned := !writeOk }

/-!  ## `ModDownloaderGUI.extract_mod` (gui.py lines 1393-1485)

All failures (missing path, not a file, wrong extension, any I/O error
during extraction) are caught by the outer `except` and yield `[]`; the
function never raises to its caller.  Entry filtering (line 1420-1423):

```python
valid_files = [f for f in zip_ref.namelist()
               if not (f.endswith('/') or f.endswith('\\') or '.disabledmods' in f)]
if total_files == 0:
    return extracted_files        # == [], before the remove-zip block
```

When there are zero eligible entries the early `return` precedes the
`remove_zip` block, so the archive is never deleted in that case. -/

/-- Does string `s` end with `t` (Python `str.endswith`)? -/
def strEndsWith (s t : String) : Bool :=
  startsWithL t.toList.reverse s.toList.reverse

/-- Is a zip entry name eligible for extraction (not a directory marker,
not under the reserved `.disabledmods` segment)? -/
def eligibleEntry (f : String) : Bool :=
  !(strEndsWith f "/" || strEndsWith f "\\" || strContains f ".disabledmods")

/-- `Path(member).name`: the base name of a zip entry. -/
def entryBaseName (f : String) : String :=
  (f.splitOn "/").getLastD f

/-- Embedding of `extract_mod`.  `pathExists`/`pathIsFile`/`suffixIsZip`
describe the archive path; `entries` is `zip_ref.namelist()`; `ioOk` is
the oracle for the chunked extraction loop (a mid-loop I/O failure makes
the inner `except` clear the list and re-raise into the outer `except`).
Returns the extracted base names and whether the archive was deleted. -/
def extract_mod (pathExists pathIsFile suffixIsZip : Bool)
    (entries : List String) (remove_zip : Bool) (ioOk : Bool) :
    List String × Bool :=
  if !pathExists || !pathIsFile || !suffixIsZip then ([], false)
  else
    let valid_files := entries.filter eligibleEntry
    if valid_files.length == 0 then
      ([], false)
    else if !ioOk then
      ([], false)
    else
      (valid_files.map entryBaseName, remove_zip)

/-- The orchestration-level check after extraction in
`download_mod_from_url` (gui.py lines 429-431) and in `check_updates`
(lines 589-590): an empty extraction result is raised as a failure. -/
def installTreatsAsFailure (extracted : List String) : Bool :=
  extracted.isEmpty

/-!  ## `ModDownloaderGUI.on_mod_status_changed` (gui.py lines 1487-1554)
and `update_mod_state` (lines 1588-1611) -/

/-- The manager state the toggle operation touches: the database, the
file system, and the number of `save_mod_db` calls performed. -/
structure GState where
  db : DB
  fs : FS
  saveCount : Nat
deriving Repr, DecidableEq

/-- Outcome of a toggle request. -/
inductive ToggleOutcome where
  /-- `mod_name` is not a key of the database: early return, no dialog. -/
  | notInDb : ToggleOutcome
  /-- Files were (re)located as needed, `enabled` set, database saved. -/
  | applied : ToggleOutcome
  /-- No matching file in either directory: warning dialog, check box
  compensated back, no state change (`ModFileMissing` in the spec). -/
  | rejectedMissing : ToggleOutcome
  /-- A `shutil.move` raised: caught by the `except`, check box
  compensated back, `enabled` not assigned, database not saved. -/
  | moveError : ToggleOutcome
deriving Repr, DecidableEq

/-- Result of `on_mod_status_changed`: the state, the final check state
of the tree item, and the outcome. -/
structure ToggleResult where
  st : GState
  checkbox : Bool
  outcome : ToggleOutcome
deriving Repr, DecidableEq

/-- The sequential `shutil.move` loop (lines 1515-1516 / 1532-1533):
moves each file in turn; a raised exception stops the loop, keeping the
moves already performed.  Returns the file system and the failing file,
if any.  `ok` is the per-file environment oracle. -/
def moveFiles (src dst : String) (ok : String → Bool) :
    FS → List String → FS × Option String
  | fs, [] => (fs, none)
  | fs, f :: rest =>
      if ok f then moveFiles src dst ok (fsMove fs src f dst f) rest
      else (fs, some f)

/-- `self.mod_db["mods"][mod_name]["enabled"] = is_enabled` (line 1547). -/
def dbSetEnabled : DB → String → Bool → DB
  | [], _, _ => []
  | p :: rest, k, v =>
      if p.1 == k then (p.1, { p.2 with enabled := v }) :: dbSetEnabled rest k v
      else p :: dbSetEnabled rest k v

/-- Embedding of `on_mod_status_changed` for a check-state change of the
tree item of `mod_name` to `is_enabled` (the `column = 0`,
`block_mod_status_change = False` path). -/
def on_mod_status_changed (st : GState) (mod_name : String)
    (is_enabled : Bool) (moveOk : String → Bool) : ToggleResult :=
  match dbFind st.db mod_name with
  | none => { st := st, checkbox := is_enabled, outcome := .notInDb }
  | some mod_info =>
    let profile_dir := mod_info.installed_path
    let disabled_dir := disabledDirOf profile_dir
    let file_candidate := fsGlob st.fs profile_dir mod_name
    let disabled_candidate := fsGlob st.fs disabled_dir mod_name
    let applied : FS → ToggleResult := fun fs' =>
      { st := { db := dbSetEnabled st.db mod_name is_enabled, fs := fs'
                saveCount := st.saveCount + 1 }
        checkbox := is_enabled, outcome := .applied }
    let moveErr : FS → ToggleResult := fun fs' =>
      { st := { st with fs := fs' }, checkbox := !is_enabled
        outcome := .moveError }
    if is_enabled then
      if !disabled_candidate.isEmpty then
        match moveFiles disabled_dir profile_dir moveOk st.fs disabled_candidate with
        | (fs', none) => applied fs'
        | (fs', some _) => moveErr fs'
      else if file_candidate.isEmpty then
        { st := st, checkbox := false, outcome := .rejectedMissing }
      else
        -- already in the main folder: fall through to the assignment
        applied st.fs
    else
      if !file_candidate.isEmpty then
        match moveFiles profile_dir disabled_dir moveOk st.fs file_candidate with
        | (fs', none) => applied fs'
        | (fs', some _) => moveErr fs'
      else if disabled_candidate.isEmpty then
        { st := st, checkbox := true, outcome := .rejectedMissing }
      else
        -- maybe it is already disabled: fall through to the assignment
        applied st.fs

/-- The loop of `update_mod_state` over `safe_file_move` (lines
1602-1604): stops and returns `False` at the first failed move. -/
def updateStateLoop (src dst : String) (rOk cOk uOk : String → Bool) :
    FS → List String → FS × Bool
  | fs, [] => (fs, true)
  | fs, f :: rest =>
      match safe_file_move fs src f dst f (rOk f) (cOk f) (uOk f) with
      | (fs', true) => updateStateLoop src dst rOk cOk uOk fs' rest
      | (fs', false) => (fs', false)

/-- Embedding of `update_mod_state`.  A missing database key raises
`KeyError`, caught by the `except` returning `False`. -/
def update_mod_state (st : GState) (mod_name : String) (is_enabled : Bool)
    (rOk cOk uOk : String → Bool) : GState × Bool :=
  match dbFind st.db mod_name with
  | none => (st, false)
  | some mod_info =>
    let profile_dir := mod_info.installed_path
    let disabled_dir := disabledDirOf profile_dir
    let src_dir := if !is_enabled then profile_dir else disabled_dir
    let dst_dir := if !is_enabled then disabled_dir else profile_dir
    let files := fsGlob st.fs src_dir mod_name
    if files.isEmpty then (st, false)
    else
      match updateStateLoop src_dir dst_dir rOk cOk uOk st.fs files with
      | (fs', true) =>
          ({ db := dbSetEnabled st.db mod_name is_enabled, fs := fs'
             saveCount := st.saveCount + 1 }, true)
      | (fs', false) => ({ st with fs := fs' }, false)

/-!  ## Location-flag coherence (spec §3 invariant, claim C1) -/

/-- The claim's per-record condition: an enabled record has no matching
file (by containment) under `installedPath/.disabledmods`; a disabled
record has no matching file directly under `installedPath`. -/
def recordCoherent (fs : FS) (r : ModRecord) : Bool :=
  if r.enabled then
    (fsGlob fs (disabledDirOf r.installed_path) r.local_name).isEmpty
  else
    (fsGlob fs r.installed_path r.local_name).isEmpty

/-- Location-flag coherence of a whole state: every database record
satisfies `recordCoherent`. -/
def coherent (st : GState) : Bool :=
  st.db.all (fun p => recordCoherent st.fs p.2)

/-!  ## `ModDownloaderGUI.edit_profile` — directory migration
(gui.py lines 1088-1151)

The whole migration runs inside one `try` (lines 1125-1146): the
`shutil.move` loop, then the `installed_path` updates, then the profile
directory update and the saves.  A `shutil.move` that raises jumps to
the `except` (lines 1147-1151), which only re-assigns the (not yet
changed) profile directory and refreshes the display: files moved before
the failure stay moved, but no `installed_path` is updated, the profile
keeps the old directory, and no success/failure counts are produced. -/

/-- The profile store: profile name mapped to its mod directory. -/
abbrev Profiles := List (String × String)

/-- Outcome of the migration. -/
inductive MigrateOutcome where
  /-- All moves succeeded: the success dialog reports `movedCount`. -/
  | success (movedCount : Nat) : MigrateOutcome
  /-- A move raised: the error dialog shows the cause; no counts. -/
  | error (failedFile : String) : MigrateOutcome
deriving Repr, DecidableEq

structure MigrateResult where
  db : DB
  fs : FS
  profiles : Profiles
  outcome : MigrateOutcome
  /-- Was `save_mod_db` reached? -/
  dbSaved : Bool
  /-- Was the profiles file rewritten? -/
  profilesSaved : Bool
deriving Repr, DecidableEq

/-- `self.profiles[name]["mod_directory"] = dir`. -/
def profilesSet : Profiles → String → String → Profiles
  | [], _, _ => []
  | p :: rest, n, d =>
      if p.1 == n then (p.1, d) :: profilesSet rest n d
      else p :: profilesSet rest n d

/-- Lines 1105-1114: the files to migrate — only files registered in
mod_db for this directory, whose `local_name` names an existing file in
`old_path`. -/
def migrationFiles (db : DB) (fs : FS) (old_path : String) : List String :=
  (db.filter (fun p =>
    p.2.installed_path == old_path && p.2.local_name != "" &&
    fsHas fs old_path p.2.local_name)).map (·.2.local_name)

/-- Embedding of the migration path of `edit_profile` (the user picked
`newPath ≠ old_path` and confirmed).  `moveOk` is the per-file
environment oracle for `shutil.move`. -/
def edit_profile (db : DB) (fs : FS) (profiles : Profiles)
    (profile_name newPath : String) (moveOk : String → Bool) :
    MigrateResult :=
  match (profiles.find? (fun p => p.1 == profile_name)).map (·.2) with
  | none =>
      { db := db, fs := fs, profiles := profiles
        outcome := .error "KeyError", dbSaved := false, profilesSaved := false }
  | some old_path =>
    let to_move : List String := migrationFiles db fs old_path
    match moveFiles old_path newPath moveOk fs to_move with
    | (fs', some f) =>
        -- lines 1147-1151: the except block; profile directory set back
        -- to the old path (it had not been changed yet), nothing saved
        { db := db, fs := fs'
          profiles := profilesSet profiles profile_name old_path
          outcome := .error f, dbSaved := false, profilesSaved := false }
    | (fs', none) =>
        -- lines 1134-1146: update installed_path of the records of this
        -- directory, update and save the profile store, save the db
        { db := db.map (fun p =>
            if p.2.installed_path == old_path then
              (p.1, { p.2 with installed_path := newPath })
            else p)
          fs := fs'
          profiles := profilesSet profiles profile_name newPath
          outcome := .success to_move.length
          dbSaved := true, profilesSaved := true }

/-!  ## `ModDownloaderGUI.check_updates` — bulk update
(gui.py lines 471-659)

The per-record interactions with the environment (network download via
`download_mod`, archive contents, the rename/copy/unlink used to restore
a disabled record) are supplied by a `RecordEnv` oracle per record id.
The cleanup `unlink(missing_ok=True)` calls of lines 540-558 are
modelled as succeeding (a failure there is logged and skipped by the
code; no claim depends on it). -/

/-- Environment outcomes for one record of a bulk-update run. -/
structure RecordEnv where
  /-- Does `download_mod` return normally? -/
  dlOk : Bool
  /-- `str(e)` of the exception when it does not. -/
  dlErr : String
  /-- The values passed to the download progress callback. -/
  dlProgress : List Nat
  /-- The values passed to the extraction progress callback. -/
  exProgress : List Nat
  /-- The list returned by `extract_mod` (`[]` on any archive error). -/
  extracted : List String
  /-- Does `extracted_path.rename(disabled_path)` succeed? -/
  renameOk : Bool
  /-- Does the fallback `shutil.copy2` succeed? -/
  copyOk : Bool
  /-- Does the fallback `extracted_path.unlink(missing_ok=True)` succeed? -/
  unlinkOk : Bool
deriving Repr, DecidableEq

/-- The cleanup loop `for f in dir.glob(f"*{name}*"): f.unlink(...)`
(lines 543-549 and 552-558). -/
def removeAllMatching (fs : FS) (d name : String) : FS :=
  (fsGlob fs d name).foldl (fun acc f => fsRemove acc d f) fs

/-- The progress value pushed to the bar by `make_progress_callback`
(lines 514-527): `int(min(completed*pp + [pp/2 +] p/100 * pp/2, 100))`,
with the float arithmetic embedded exactly over `ℚ`. -/
def emitVal (completed : Nat) (pp : ℚ) (isExtract : Bool) (p : Nat) : ℤ :=
  let portion : ℚ := pp / 2
  let base : ℚ := (completed : ℚ) * pp + (p : ℚ) / 100 * portion
  let cur : ℚ := if isExtract then base + portion else base
  ⌊min cur 100⌋

/-- The per-extracted-file registration loop of a bulk update (lines
594-627): for each extracted name that is a file in the profile
directory, write the refreshed database entry and, when the record was
disabled before the batch, relocate the fresh file into the disabled
subdirectory (rename, falling back to copy plus unlink). -/
def registerExtracted (rec : ModRecord) (pd dd : String) (now : Nat)
    (wasDisabled : Bool) (e : RecordEnv) :
    DB × FS → List String → DB × FS
  | (db, fs), [] => (db, fs)
  | (db, fs), f :: rest =>
    if fsHas fs pd f then
      let db' := dbInsert db f
        { rec with local_name := f, updated_date := now, enabled := !wasDisabled }
      let fs' :=
        if wasDisabled then
          if e.renameOk then fsMove fs pd f dd f
          else if e.copyOk then
            if e.unlinkOk then fsMove fs pd f dd f
            else fsAdd fs dd f        -- copy in place, source left behind
          else fs                     -- move and copy both failed: logged
        else fs
      registerExtracted rec pd dd now wasDisabled e (db', fs') rest
    else
      registerExtracted rec pd dd now wasDisabled e (db, fs) rest

/-- Mutable state of the `for mod_id, mod_info in mods:` loop. -/
structure BulkSt where
  db : DB
  fs : FS
  /-- `completed` (line 511): incremented only at line 638, which both
  `continue` statements (lines 535 and 632) skip. -/
  completed : Nat
  failed : List (String × String)
  /-- Every value pushed to the overall progress bar, in order. -/
  emitted : List ℤ
  /-- The record ids for which `download_mod` was invoked. -/
  attempted : List String
deriving Repr, DecidableEq

/-- One iteration of the bulk-update loop (lines 529-640) for record
`(mid, mod_info)`, given the batch-start `disabledMods` snapshot. -/
def processMod (pp : ℚ) (disabledMods : List (String × String)) (now : Nat)
    (env : String → RecordEnv) (st : BulkSt) (m : String × ModRecord) :
    BulkSt :=
  let mid := m.1
  let mod_info := m.2
  let e := env mid
  if mod_info.url == "" then
    -- lines 532-535: immediate failure, no network access, `continue`
    { st with failed := st.failed ++ [(mid, "No URL found")] }
  else
    let pd := mod_info.installed_path
    let dd := disabledDirOf pd
    let wasDisabled := (disabledMods.find? (fun p => p.1 == mid)).isSome
    -- lines 540-549: old disabled files removed only when the record
    -- was disabled at batch start, using the snapshotted name
    let fs1 :=
      match disabledMods.find? (fun p => p.1 == mid) with
      | some p => removeAllMatching st.fs dd p.2
      | none => st.fs
    -- lines 551-558: old enabled files removed unconditionally
    let fs2 := removeAllMatching fs1 pd mod_info.local_name
    let emitted1 := st.emitted ++ e.dlProgress.map (emitVal st.completed pp false)
    let attempted1 := st.attempted ++ [mid]
    if !e.dlOk then
      -- lines 629-632: failure recorded, `continue` (no increment)
      { st with fs := fs2, emitted := emitted1, attempted := attempted1,
                failed := st.failed ++ [(mid, e.dlErr)] }
    else
      let emitted2 := emitted1 ++ e.exProgress.map (emitVal st.completed pp true)
      -- extract_mod wrote the extracted files into the profile directory
      let fs3 := e.extracted.foldl (fun acc f => fsAdd acc pd f) fs2
      if e.extracted.isEmpty then
        -- lines 589-590 and 629-632: RuntimeError, recorded, `continue`
        { st with fs := fs3, emitted := emitted2, attempted := attempted1,
                  failed := st.failed ++ [(mid, "No files extracted from archive")] }
      else
        let dbfs := registerExtracted mod_info pd dd now wasDisabled e
          (st.db, fs3) e.extracted
        -- lines 638-639: completed += 1; setValue(int(completed * pp))
        { db := dbfs.1, fs := dbfs.2, completed := st.completed + 1
          failed := st.failed
          emitted := emitted2 ++ [⌊((st.completed : ℚ) + 1) * pp⌋]
          attempted := attempted1 }

/-- Result of a bulk-update run. -/
structure BulkResult where
  db : DB
  fs : FS
  completed : Nat
  failed : List (String × String)
  emitted : List ℤ
  attempted : List String
  /-- Number of `save_mod_db` calls the operation performed. -/
  saves : Nat
deriving Repr, DecidableEq

/-- Lines 499-503: the batch-start snapshot of the currently disabled
records, mod id mapped to `local_name`. -/
def disabledModsOf (mods : List (String × ModRecord)) :
    List (String × String) :=
  (mods.filter (fun p => !p.2.enabled)).map (fun p => (p.1, p.2.local_name))

/-- Embedding of `check_updates` (the user confirmed, a profile is
selected).  `now` is the timestamp `datetime.now()` of the refresh. -/
def check_updates (db : DB) (fs : FS) (profile_name : String) (now : Nat)
    (env : String → RecordEnv) : BulkResult :=
  let mods := db.filter (fun p => p.2.profile == profile_name)
  if mods.isEmpty then
    -- line 495-496: early return, nothing saved, no progress shown
    { db := db, fs := fs, completed := 0, failed := [], emitted := []
      attempted := [], saves := 0 }
  else
    let disabledMods := disabledModsOf mods
    let pp : ℚ := 100 / (mods.length : ℚ)
    -- line 505: progress_bar.setValue(0)
    let init : BulkSt := { db := db, fs := fs, completed := 0, failed := []
                           emitted := [0], attempted := [] }
    let final := mods.foldl (processMod pp disabledMods now env) init
    -- lines 642-651: save once, then setValue(100) only on full success
    let emittedFinal :=
      if final.completed == mods.length && final.failed.isEmpty then
        final.emitted ++ [100]
      else final.emitted
    { db := final.db, fs := final.fs, completed := final.completed
      failed := final.failed, emitted := emittedFinal
      attempted := final.attempted, saves := 1 }

/-- `rename` succeeded, or the copy-plus-unlink fallback fully
succeeded: the fresh file ends up in the disabled directory and leaves
the profile directory. -/
def moveEff (e : RecordEnv) : Bool :=
  e.renameOk || (e.copyOk && e.unlinkOk)

/-- Did the bulk-update loop reach line 638 for this record (resolution,
download and extraction all produced something)? -/
def recSucceeds (env : String → RecordEnv) (m : String × ModRecord) : Bool :=
  m.2.url != "" && (env m.1).dlOk && !(env m.1).extracted.isEmpty

/-- The cause string recorded in `failed_mods` for a failing record. -/
def failCause (env : String → RecordEnv) (m : String × ModRecord) : String :=
  if m.2.url == "" then "No URL found"
  else if !(env m.1).dlOk then (env m.1).dlErr
  else "No files extracted from archive"

/-- Concrete record constructor for the counterexamples and witnesses
below (profile `"Pr"`). -/
def mkRecord (localName path : String) (en : Bool) (u : String) : ModRecord :=
  { name := localName, local_name := localName, zip_name := "z.zip"
    installed_date := 0, updated_date := 0, profile := "Pr", enabled := en
    installed_path := path, url := u }

/-- A fully successful record environment extracting `ex`. -/
def envOk (ex : List String) : RecordEnv :=
  { dlOk := true, dlErr := "", dlProgress := [], exProgress := []
    extracted := ex, renameOk := true, copyOk := true, unlinkOk := true }

/-- Boolean check that a progress list is non-decreasing (used to state
hypotheses about the values a progress callback receives in a form the
kernel can evaluate). -/
def leChainB : List Nat → Bool
  | [] => true
  | [_] => true
  | a :: b :: t => Nat.ble a b && leChainB (b :: t)

end ModManager

/-! # Theorems -/

namespace ModManager

/-! ## Basic file-system and database lemmas -/

theorem fsHas_true_iff (fs : FS) (d f : String) :
    fsHas fs d f = true ↔ (d, f) ∈ fs := by
  simp only [fsHas, List.any_eq_true, Bool.and_eq_true, beq_iff_eq]
  constructor
  · rintro ⟨⟨a, b⟩, he, h1, h2⟩
    simp only at h1 h2
    rw [← h1, ← h2]; exact he
  · intro h; exact ⟨(d, f), h, rfl, rfl⟩

theorem fsHas_fsRemove (fs : FS) (d f d' f' : String) :
    fsHas (fsRemove fs d f) d' f'
      = (fsHas fs d' f' && !(d == d' && f == f')) := by
  rw [Bool.eq_iff_iff]
  simp only [Bool.and_eq_true, fsHas_true_iff, fsRemove, List.mem_filter,
    Bool.not_eq_true', Bool.and_eq_false_iff, beq_eq_false_iff_ne, ne_eq,
    beq_iff_eq]
  constructor
  · rintro ⟨h1, h2⟩
    refine ⟨h1, ?_⟩
    rcases h2 with h | h
    · exact Or.inl (fun hc => h hc.symm)
    · exact Or.inr (fun hc => h hc.symm)
  · rintro ⟨h1, h2⟩
    refine ⟨h1, ?_⟩
    rcases h2 with h | h
    · exact Or.inl (fun hc => h hc.symm)
    · exact Or.inr (fun hc => h hc.symm)

theorem fsHas_fsAdd (fs : FS) (d f d' f' : String) :
    fsHas (fsAdd fs d f) d' f'
      = ((d == d' && f == f') || fsHas fs d' f') := by
  rw [Bool.eq_iff_iff]
  simp only [fsAdd, fsHas_true_iff, List.mem_append, List.mem_singleton,
    Bool.or_eq_true, Bool.and_eq_true, beq_iff_eq, fsRemove, List.mem_filter,
    Bool.not_eq_true', Bool.and_eq_false_iff, beq_eq_false_iff_ne, ne_eq,
    Prod.mk.injEq]
  by_cases h1 : d = d' <;> by_cases h2 : f = f' <;> subst_vars <;> tauto

theorem fsHas_fsMove_self (fs : FS) (sd sf dd df : String) :
    fsHas (fsMove fs sd sf dd df) dd df = true := by
  simp [fsMove, fsHas_fsAdd]

theorem fsHas_fsMove_src (fs : FS) (sd sf dd df : String)
    (h : (sd, sf) ≠ (dd, df)) :
    fsHas (fsMove fs sd sf dd df) sd sf = false := by
  have : ¬(dd = sd ∧ df = sf) := by
    intro hc; exact h (by simp [hc.1, hc.2])
  simp only [fsMove, fsHas_fsAdd, fsHas_fsRemove]
  by_cases h1 : dd = sd <;> by_cases h2 : df = sf <;> simp_all

theorem fsHas_fsMove_other (fs : FS) (sd sf dd df d f : String)
    (hs : ¬(sd = d ∧ sf = f)) (hd : ¬(dd = d ∧ df = f)) :
    fsHas (fsMove fs sd sf dd df) d f = fsHas fs d f := by
  rw [Bool.eq_iff_iff]
  simp only [fsMove, fsAdd, fsHas_true_iff, List.mem_append,
    List.mem_singleton, fsRemove, List.mem_filter, Prod.mk.injEq,
    Bool.not_eq_true', Bool.and_eq_false_iff, beq_eq_false_iff_ne, ne_eq]
  constructor
  · rintro (⟨⟨hm, -⟩, -⟩ | ⟨h1, h2⟩)
    · exact hm
    · exact absurd ⟨h1.symm, h2.symm⟩ hd
  · intro hm
    left
    constructor
    · refine ⟨hm, ?_⟩
      by_cases h3 : d = sd
      · exact Or.inr (fun hc => hs ⟨h3.symm, hc.symm⟩)
      · exact Or.inl h3
    · by_cases h3 : d = dd
      · exact Or.inr (fun hc => hd ⟨h3.symm, hc.symm⟩)
      · exact Or.inl h3

theorem dbFind_dbInsert_self (db : DB) (k : String) (v : ModRecord) :
    dbFind (dbInsert db k v) k = some v := by
  induction db with
  | nil => simp [dbInsert, dbFind, List.find?]
  | cons p rest ih =>
      by_cases hp : p.1 = k
      · simp [dbInsert, dbFind, List.find?, hp]
      · simpa [dbInsert, dbFind, List.find?, hp] using ih

theorem dbFind_dbInsert_other (db : DB) (k k' : String) (v : ModRecord)
    (h : k' ≠ k) :
    dbFind (dbInsert db k v) k' = dbFind db k' := by
  have hkk : (k == k') = false := beq_eq_false_iff_ne.mpr (Ne.symm h)
  induction db with
  | nil => simp [dbInsert, dbFind, List.find?, hkk]
  | cons p rest ih =>
      by_cases hp : p.1 = k
      · have hb : (p.1 == k) = true := by simp [hp]
        have hb' : (p.1 == k') = false := by
          rw [hp]; exact hkk
        simp [dbInsert, dbFind, List.find?, hb, hb', hkk]
      · have hb : (p.1 == k) = false := beq_eq_false_iff_ne.mpr hp
        by_cases hp' : p.1 = k'
        · have hb' : (p.1 == k') = true := by simp [hp']
          simp [dbInsert, dbFind, List.find?, hb, hb']
        · have hb' : (p.1 == k') = false := beq_eq_false_iff_ne.mpr hp'
          simpa [dbInsert, dbFind, List.find?, hb, hb'] using ih

theorem dbFind_dbSetEnabled_self (db : DB) (k : String) (v : Bool)
    (r : ModRecord) (h : dbFind db k = some r) :
    dbFind (dbSetEnabled db k v) k = some { r with enabled := v } := by
  induction db with
  | nil => simp [dbFind, List.find?] at h
  | cons p rest ih =>
      by_cases hp : p.1 = k
      · have hb : (p.1 == k) = true := by simp [hp]
        have hr : p.2 = r := by
          simpa [dbFind, List.find?, hb] using h
        simp [dbSetEnabled, dbFind, List.find?, hb, hp, hr]
      · have hb : (p.1 == k) = false := beq_eq_false_iff_ne.mpr hp
        have h' : dbFind rest k = some r := by
          simpa [dbFind, List.find?, hb] using h
        simpa [dbSetEnabled, dbFind, List.find?, hb] using ih h'

theorem profilesSet_find (ps : Profiles) (n d old : String)
    (h : (ps.find? (fun p => p.1 == n)).map (·.2) = some old) :
    ((profilesSet ps n d).find? (fun p => p.1 == n)).map (·.2) = some d := by
  induction ps with
  | nil => simp [List.find?] at h
  | cons p rest ih =>
      by_cases hp : p.1 = n
      · have hb : (p.1 == n) = true := by simp [hp]
        simp [profilesSet, List.find?, hb]
      · have hb : (p.1 == n) = false := beq_eq_false_iff_ne.mpr hp
        have h' : (rest.find? (fun p => p.1 == n)).map (·.2) = some old := by
          simpa [List.find?, hb] using h
        simpa [profilesSet, List.find?, hb] using ih h'

theorem ne_disabledDirOf (p : String) : p ≠ disabledDirOf p := by
  intro h
  have h1 := congrArg String.length h
  rw [disabledDirOf, String.length_append] at h1
  have h2 : ("/.disabledmods" : String).length = 14 := by decide
  rw [h2] at h1
  omega

/-! ## C3 — `safe_file_move` result reporting

The claim says: when the rename fails, the copy succeeds and the source
unlink fails, the operation still reports success, and failure is
reported only when both rename and copy fail.  In the code the source
unlink sits inside the same `try` as the copy, so its exception also
produces `return False`. -/

/-- C3, counterexample: rename fails, copy succeeds, source deletion
fails — `safe_file_move` returns `False` even though the destination
file exists (with the source left behind), contradicting the claim that
this case still reports success and that failure requires the copy to
fail too. -/
theorem safe_file_move_copy_delete_counterexample :
    (safe_file_move [("s", "f")] "s" "f" "d" "f" false true false).2 = false
    ∧ fsHas (safe_file_move [("s", "f")] "s" "f" "d" "f" false true false).1
        "d" "f" = true
    ∧ fsHas (safe_file_move [("s", "f")] "s" "f" "d" "f" false true false).1
        "s" "f" = true := by decide

/-- C3 (amended): the relocator reports success iff the rename succeeds
or both the fallback copy and the source deletion succeed; when the copy
succeeds but the deletion fails, it reports failure even though the
destination file exists.  The destination exists afterwards iff the
rename or the copy succeeded. -/
theorem safe_file_move_result_spec :
    ∀ (fs : FS) (sd sf dd df : String) (renameOk copyOk unlinkOk : Bool),
      (safe_file_move fs sd sf dd df renameOk copyOk unlinkOk).2
          = (renameOk || (copyOk && unlinkOk))
      ∧ fsHas (safe_file_move fs sd sf dd df renameOk copyOk unlinkOk).1 dd df
          = (renameOk || copyOk) := by
  intro fs sd sf dd df renameOk copyOk unlinkOk
  cases renameOk <;> cases copyOk <;> cases unlinkOk <;>
    simp [safe_file_move, fsHas_fsAdd, fsHas_fsRemove]

/-! ## C4 — `save_mod_db` backup behaviour

The claim says the `.bak` backup is best-effort and a backup failure
does not prevent the new contents from being written.  In the code one
`try` block covers both the backup copy and the write, so a backup
exception skips the write entirely. -/

/-- C4, counterexample: the database file exists, the backup copy fails,
the write itself would succeed — yet the new contents are not written
(and the failure dialog is shown), contradicting the claim. -/
theorem save_mod_db_backup_failure_counterexample :
    save_mod_db true false true
      = { backupWritten := false, newContentsWritten := false
          warned := true } := by decide

/-- C4 (amended): a failing backup copy aborts the whole save — the new
database contents are written iff (no backup was needed or the backup
succeeded) and the write itself succeeds; the backup is written iff the
file existed and the copy succeeded; the warning fires exactly when the
contents were not written. -/
theorem save_mod_db_backup_gates_save :
    ∀ (dbFileExists backupOk writeOk : Bool),
      (save_mod_db dbFileExists backupOk writeOk).newContentsWritten
          = ((!dbFileExists || backupOk) && writeOk)
      ∧ (save_mod_db dbFileExists backupOk writeOk).backupWritten
          = (dbFileExists && backupOk)
      ∧ (save_mod_db dbFileExists backupOk writeOk).warned
          = !((!dbFileExists || backupOk) && writeOk) := by decide

/-! ## C10 — empty archive rejection -/

/-- C10: an archive with zero eligible entries (after dropping directory
markers and `.disabledmods` entries) extracts to the empty list with no
error, the archive file is not deleted even when `remove_zip` was
requested, and the installing caller treats the empty result as the
failure that aborts the install (leaving the archive in place). -/
theorem extract_mod_empty_archive (pE pF sZ remove_zip ioOk : Bool)
    (entries : List String)
    (h : ∀ f ∈ entries, eligibleEntry f = false) :
    extract_mod pE pF sZ entries remove_zip ioOk = ([], false)
    ∧ installTreatsAsFailure
        (extract_mod pE pF sZ entries remove_zip ioOk).1 = true := by
  have hfilter : entries.filter eligibleEntry = [] := by
    rw [List.filter_eq_nil_iff]
    intro f hf
    simp [h f hf]
  have h1 : extract_mod pE pF sZ entries remove_zip ioOk = ([], false) := by
    cases hb : (!pE || !pF || !sZ) <;>
      simp [extract_mod, hb, hfilter]
  exact ⟨h1, by rw [h1]; rfl⟩

/-- C10, witness: an archive holding only a directory marker and an
entry under `.disabledmods`. -/
theorem extract_mod_empty_archive_witness :
    extract_mod true true true ["dir/", "a/.disabledmods/b.pak"] true true
        = ([], false)
    ∧ installTreatsAsFailure
        (extract_mod true true true ["dir/", "a/.disabledmods/b.pak"]
          true true).1 = true :=
  extract_mod_empty_archive true true true true true
    ["dir/", "a/.disabledmods/b.pak"] (by decide)

/-! ## `moveFiles` lemmas -/

theorem mem_fsGlob_of (fs : FS) (d name : String) (e : String × String)
    (he : e ∈ fs) (hd : e.1 = d) (hm : strContains e.2 name = true) :
    e.2 ∈ fsGlob fs d name := by
  simp only [fsGlob, List.mem_map, List.mem_filter]
  exact ⟨e, ⟨he, by simp [hd, hm]⟩, rfl⟩

theorem moveFiles_none_clears (src dst name : String) (hne : src ≠ dst)
    (ok : String → Bool) :
    ∀ (l : List String) (fs : FS),
      (moveFiles src dst ok fs l).2 = none →
      (∀ e ∈ fs, e.1 = src → strContains e.2 name = true → e.2 ∈ l) →
      fsGlob (moveFiles src dst ok fs l).1 src name = [] := by
  intro l
  induction l with
  | nil =>
      intro fs _ hcl
      simp only [moveFiles, fsGlob]
      rw [List.map_eq_nil_iff, List.filter_eq_nil_iff]
      intro e he
      simp only [Bool.and_eq_true, beq_iff_eq, not_and]
      intro h1 h2
      exact absurd (hcl e he h1 h2) (List.not_mem_nil _)
  | cons f rest ih =>
      intro fs hnone hcl
      by_cases hok : ok f = true
      · have hred : moveFiles src dst ok fs (f :: rest)
            = moveFiles src dst ok (fsMove fs src f dst f) rest := by
          simp [moveFiles, hok]
        rw [hred] at hnone ⊢
        apply ih _ hnone
        intro e he h1 h2
        have hmem : e ∈ fsRemove (fsRemove fs src f) dst f ∨ e = (dst, f) := by
          simpa [fsMove, fsAdd, List.mem_append] using he
        rcases hmem with hmr | he'
        · have hz1 := List.mem_filter.mp hmr
          have hz2 := List.mem_filter.mp hz1.1
          have hne2 : e.2 ≠ f := by
            have := hz2.2
            simp only [Bool.not_eq_true', Bool.and_eq_false_iff,
              beq_eq_false_iff_ne, ne_eq] at this
            rcases this with h | h
            · exact absurd h1 h
            · exact h
          have hmem2 := hcl e hz2.1 h1 h2
          simpa [hne2] using hmem2
        · exfalso
          exact hne (h1.symm.trans (by rw [he']))
      · have hok' : ok f = false := by simpa using hok
        simp [moveFiles, hok'] at hnone

theorem moveFiles_some_spec (src dst : String) (ok : String → Bool) :
    ∀ (l : List String) (fs : FS) (f : String),
      (moveFiles src dst ok fs l).2 = some f →
      ok f = false
      ∧ ∃ pre post, l = pre ++ f :: post ∧ (∀ x ∈ pre, ok x = true)
          ∧ (moveFiles src dst ok fs l).1
              = pre.foldl (fun acc x => fsMove acc src x dst x) fs := by
  intro l
  induction l with
  | nil => intro fs f h; simp [moveFiles] at h
  | cons g rest ih =>
      intro fs f h
      by_cases hok : ok g = true
      · have hred : moveFiles src dst ok fs (g :: rest)
            = moveFiles src dst ok (fsMove fs src g dst g) rest := by
          simp [moveFiles, hok]
        rw [hred] at h ⊢
        obtain ⟨h1, pre, post, h2, h3, h4⟩ := ih _ _ h
        refine ⟨h1, g :: pre, post, by rw [h2]; rfl, ?_, ?_⟩
        · intro x hx
          rcases List.mem_cons.mp hx with rfl | hx
          · exact hok
          · exact h3 x hx
        · simpa using h4
      · have hok' : ok g = false := by simpa using hok
        have hred : moveFiles src dst ok fs (g :: rest) = (fs, some g) := by
          simp [moveFiles, hok']
        rw [hred] at h ⊢
        obtain rfl : g = f := by simpa using h
        exact ⟨hok', [], rest, rfl, by simp, rfl⟩

/-! ## C7 — toggle of a record whose file is missing everywhere -/

/-- C7: toggling a record whose matching files are absent from both the
profile directory and the disabled subdirectory is rejected: the GUI
handler leaves the whole state (database, file system, save count)
unchanged, compensates the check box back to the prior state (the
opposite of the requested one), and reports the missing-file outcome;
`update_mod_state` likewise returns `False` without touching the state. -/
theorem toggle_missing_file_rejected (st : GState) (mod_name : String)
    (is_enabled : Bool) (moveOk rOk cOk uOk : String → Bool)
    (rec : ModRecord)
    (hfind : dbFind st.db mod_name = some rec)
    (hmain : fsGlob st.fs rec.installed_path mod_name = [])
    (hdis : fsGlob st.fs (disabledDirOf rec.installed_path) mod_name = []) :
    on_mod_status_changed st mod_name is_enabled moveOk
      = { st := st, checkbox := !is_enabled, outcome := .rejectedMissing }
    ∧ update_mod_state st mod_name is_enabled rOk cOk uOk = (st, false) := by
  constructor
  · cases is_enabled <;>
      simp [on_mod_status_changed, hfind, hmain, hdis]
  · cases is_enabled <;>
      simp [update_mod_state, hfind, hmain, hdis]

/-- C7, witness: a record registered in the database with no file on
disk at all. -/
theorem toggle_missing_file_rejected_witness :
    on_mod_status_changed
        { db := [("m.pak", mkRecord "m.pak" "P" true "u")], fs := []
          saveCount := 0 } "m.pak" false (fun _ => true)
      = { st := { db := [("m.pak", mkRecord "m.pak" "P" true "u")], fs := []
                  saveCount := 0 }
          checkbox := true, outcome := .rejectedMissing }
    ∧ update_mod_state
        { db := [("m.pak", mkRecord "m.pak" "P" true "u")], fs := []
          saveCount := 0 } "m.pak" false (fun _ => true) (fun _ => true)
        (fun _ => true)
      = ({ db := [("m.pak", mkRecord "m.pak" "P" true "u")], fs := []
           saveCount := 0 }, false) :=
  toggle_missing_file_rejected _ "m.pak" false _ _ _ _
    (mkRecord "m.pak" "P" true "u") (by decide) (by decide) (by decide)

/-! ## C1 — location-flag coherence -/

/-- C1, counterexample: the claimed invariant fails after a toggle.  Two
enabled records `a.pak` and `ba.pak` live coherently in profile
directory `P`; disabling `a.pak` moves **both** files (the glob
`*a.pak*` matches `ba.pak` by containment) into `.disabledmods`, the
toggle completes and saves, and then record `ba.pak` is `enabled=true`
with its file under the disabled directory — the invariant is violated
after a completed toggle from a coherent state. -/
theorem toggle_containment_breaks_coherence :
    coherent { db := [("a.pak", mkRecord "a.pak" "P" true "u"),
                      ("ba.pak", mkRecord "ba.pak" "P" true "u")]
               fs := [("P", "a.pak"), ("P", "ba.pak")], saveCount := 0 } = true
    ∧ (on_mod_status_changed
        { db := [("a.pak", mkRecord "a.pak" "P" true "u"),
                 ("ba.pak", mkRecord "ba.pak" "P" true "u")]
          fs := [("P", "a.pak"), ("P", "ba.pak")], saveCount := 0 }
        "a.pak" false (fun _ => true)).outcome = .applied
    ∧ coherent (on_mod_status_changed
        { db := [("a.pak", mkRecord "a.pak" "P" true "u"),
                 ("ba.pak", mkRecord "ba.pak" "P" true "u")]
          fs := [("P", "a.pak"), ("P", "ba.pak")], saveCount := 0 }
        "a.pak" false (fun _ => true)).st = false := by decide

/-- C1 (amended): the coherence the code actually restores is per
toggled record — after a toggle completes successfully, the toggled
record's flag equals the requested state and no file matching it remains
on the side it left (no match under `.disabledmods` when enabling, no
match directly under `installedPath` when disabling).  The invariant
over *all* records can be broken by the containment matching, and
install/bulk-update do not clear a stale disabled-side file for records
they enable. -/
theorem toggle_applied_record_coherent (st : GState) (mod_name : String)
    (is_enabled : Bool) (moveOk : String → Bool) (rec : ModRecord)
    (hfind : dbFind st.db mod_name = some rec)
    (happ : (on_mod_status_changed st mod_name is_enabled moveOk).outcome
      = .applied) :
    dbFind (on_mod_status_changed st mod_name is_enabled moveOk).st.db
        mod_name = some { rec with enabled := is_enabled }
    ∧ fsGlob (on_mod_status_changed st mod_name is_enabled moveOk).st.fs
        (if is_enabled then disabledDirOf rec.installed_path
         else rec.installed_path) mod_name = [] := by
  have hdb := dbFind_dbSetEnabled_self st.db mod_name is_enabled rec hfind
  cases is_enabled
  · -- disabling: files must leave the profile directory
    by_cases hfc : (fsGlob st.fs rec.installed_path mod_name).isEmpty = true
    · by_cases hdc :
          (fsGlob st.fs (disabledDirOf rec.installed_path) mod_name).isEmpty
            = true
      · exfalso
        simp [on_mod_status_changed, hfind, hfc, hdc] at happ
      · constructor
        · simpa [on_mod_status_changed, hfind, hfc, hdc] using hdb
        · have : fsGlob st.fs rec.installed_path mod_name = [] :=
            List.isEmpty_iff.mp hfc
          simpa [on_mod_status_changed, hfind, hfc, hdc] using this
    · rcases hmv : moveFiles rec.installed_path
          (disabledDirOf rec.installed_path) moveOk st.fs
          (fsGlob st.fs rec.installed_path mod_name) with ⟨fs', r⟩
      cases r with
      | some f =>
          exfalso
          simp [on_mod_status_changed, hfind, hfc, hmv] at happ
      | none =>
          have hclear := moveFiles_none_clears rec.installed_path
            (disabledDirOf rec.installed_path) mod_name
            (ne_disabledDirOf rec.installed_path) moveOk
            (fsGlob st.fs rec.installed_path mod_name) st.fs
            (by rw [hmv]) (fun e he h1 h2 => mem_fsGlob_of st.fs _ _ e he h1 h2)
          rw [hmv] at hclear
          constructor
          · simpa [on_mod_status_changed, hfind, hfc, hmv] using hdb
          · simpa [on_mod_status_changed, hfind, hfc, hmv] using hclear
  · -- enabling: files must leave the disabled directory
    by_cases hdc :
        (fsGlob st.fs (disabledDirOf rec.installed_path) mod_name).isEmpty
          = true
    · by_cases hfc : (fsGlob st.fs rec.installed_path mod_name).isEmpty = true
      · exfalso
        simp [on_mod_status_changed, hfind, hfc, hdc] at happ
      · constructor
        · simpa [on_mod_status_changed, hfind, hfc, hdc] using hdb
        · have : fsGlob st.fs (disabledDirOf rec.installed_path) mod_name
              = [] := List.isEmpty_iff.mp hdc
          simpa [on_mod_status_changed, hfind, hfc, hdc] using this
    · rcases hmv : moveFiles (disabledDirOf rec.installed_path)
          rec.installed_path moveOk st.fs
          (fsGlob st.fs (disabledDirOf rec.installed_path) mod_name)
          with ⟨fs', r⟩
      cases r with
      | some f =>
          exfalso
          simp [on_mod_status_changed, hfind, hdc, hmv] at happ
      | none =>
          have hclear := moveFiles_none_clears (disabledDirOf rec.installed_path)
            rec.installed_path mod_name
            (Ne.symm (ne_disabledDirOf rec.installed_path)) moveOk
            (fsGlob st.fs (disabledDirOf rec.installed_path) mod_name) st.fs
            (by rw [hmv]) (fun e he h1 h2 => mem_fsGlob_of st.fs _ _ e he h1 h2)
          rw [hmv] at hclear
          constructor
          · simpa [on_mod_status_changed, hfind, hdc, hmv] using hdb
          · simpa [on_mod_status_changed, hfind, hdc, hmv] using hclear

/-- C1, witness for the amended theorem: disabling a single coherent
record moves its file out of the profile directory. -/
theorem toggle_applied_record_coherent_witness :
    dbFind (on_mod_status_changed
        { db := [("m.pak", mkRecord "m.pak" "P" true "u")]
          fs := [("P", "m.pak")], saveCount := 0 }
        "m.pak" false (fun _ => true)).st.db "m.pak"
      = some { mkRecord "m.pak" "P" true "u" with enabled := false }
    ∧ fsGlob (on_mod_status_changed
        { db := [("m.pak", mkRecord "m.pak" "P" true "u")]
          fs := [("P", "m.pak")], saveCount := 0 }
        "m.pak" false (fun _ => true)).st.fs
        (if false then disabledDirOf (mkRecord "m.pak" "P" true "u").installed_path
         else (mkRecord "m.pak" "P" true "u").installed_path) "m.pak" = [] :=
  toggle_applied_record_coherent _ "m.pak" false (fun _ => true)
    (mkRecord "m.pak" "P" true "u") (by decide) (by decide)

/-! ## C2 — profile-directory migration failure handling -/

/-- C2, counterexample: three tracked files where moving the second
fails.  The claim predicts 2 successes and 1 failure reported, records 1
and 3 with updated `installedPath`, and the profile directory updated.
The code instead aborts inside the single `try`: file 1 stays moved,
file 3 is never moved, **no** record's `installedPath` changes, the
profile keeps the old directory, nothing is saved, and the caller gets
an error rather than counts. -/
theorem edit_profile_partial_migration_counterexample :
    edit_profile
        [("f1", mkRecord "f1" "P" true "u"), ("f2", mkRecord "f2" "P" true "u"),
         ("f3", mkRecord "f3" "P" true "u")]
        [("P", "f1"), ("P", "f2"), ("P", "f3")]
        [("Pr", "P")] "Pr" "Q" (fun f => f != "f2")
      = { db := [("f1", mkRecord "f1" "P" true "u"),
                 ("f2", mkRecord "f2" "P" true "u"),
                 ("f3", mkRecord "f3" "P" true "u")]
          fs := [("P", "f2"), ("P", "f3"), ("Q", "f1")]
          profiles := [("Pr", "P")]
          outcome := .error "f2"
          dbSaved := false, profilesSaved := false } := by decide

/-- C2 (amended): when any individual relocation fails, the migration
aborts at that file: files moved before the failure stay in the new
directory and later files are not moved (the resulting file system is
exactly the prefix fold of moves), no record's `installedPath` is
updated (the database is returned unchanged and not saved), the
profile's directory field keeps the old directory, and the caller
receives the error cause instead of success/failure counts. -/
theorem edit_profile_aborts_on_move_failure (db : DB) (fs : FS)
    (profiles : Profiles) (pname newPath old_path f : String)
    (moveOk : String → Bool)
    (hp : (profiles.find? (fun p => p.1 == pname)).map (·.2) = some old_path)
    (hfail : (moveFiles old_path newPath moveOk fs
        (migrationFiles db fs old_path)).2 = some f) :
    edit_profile db fs profiles pname newPath moveOk
      = { db := db
          fs := (moveFiles old_path newPath moveOk fs
            (migrationFiles db fs old_path)).1
          profiles := profilesSet profiles pname old_path
          outcome := .error f, dbSaved := false, profilesSaved := false }
    ∧ ((profilesSet profiles pname old_path).find?
        (fun p => p.1 == pname)).map (·.2) = some old_path := by
  constructor
  · rcases hmv : moveFiles old_path newPath moveOk fs
        (migrationFiles db fs old_path) with ⟨fs', r⟩
    rw [hmv] at hfail
    obtain rfl : r = some f := hfail
    simp [edit_profile, hp, hmv]
  · exact profilesSet_find profiles pname old_path old_path hp

/-- C2, witness for the amended theorem: the three-file scenario of the
spec, failing at the second file. -/
theorem edit_profile_aborts_on_move_failure_witness :
    edit_profile
        [("f1", mkRecord "f1" "P" true "u"), ("f2", mkRecord "f2" "P" true "u"),
         ("f3", mkRecord "f3" "P" true "u")]
        [("P", "f1"), ("P", "f2"), ("P", "f3")]
        [("Pr", "P")] "Pr" "Q" (fun g => g != "f2")
      = { db := [("f1", mkRecord "f1" "P" true "u"),
                 ("f2", mkRecord "f2" "P" true "u"),
                 ("f3", mkRecord "f3" "P" true "u")]
          fs := (moveFiles "P" "Q" (fun g => g != "f2")
            [("P", "f1"), ("P", "f2"), ("P", "f3")]
            (migrationFiles
              [("f1", mkRecord "f1" "P" true "u"),
               ("f2", mkRecord "f2" "P" true "u"),
               ("f3", mkRecord "f3" "P" true "u")]
              [("P", "f1"), ("P", "f2"), ("P", "f3")] "P")).1
          profiles := profilesSet [("Pr", "P")] "Pr" "P"
          outcome := .error "f2", dbSaved := false, profilesSaved := false }
    ∧ ((profilesSet [("Pr", "P")] "Pr" "P").find?
        (fun p => p.1 == "Pr")).map (·.2) = some "P" :=
  edit_profile_aborts_on_move_failure _ _ _ "Pr" "Q" "P" "f2"
    (fun g => g != "f2") (by decide) (by decide)

/-! ## C5 — pre-download cleanup of old files -/

theorem foldl_fsRemove_eq (d : String) :
    ∀ (l : List String) (fs : FS),
      l.foldl (fun acc f => fsRemove acc d f) fs
        = fs.filter (fun e => !(e.1 == d && decide (e.2 ∈ l))) := by
  intro l
  induction l with
  | nil =>
      intro fs
      simp
  | cons g rest ih =>
      intro fs
      rw [List.foldl_cons, ih, fsRemove, List.filter_filter]
      apply List.filter_congr
      intro e _
      cases hc : (e.1 == d) <;>
        cases hg : (e.2 == g) <;>
          simp_all [List.mem_cons, beq_iff_eq]

theorem removeAllMatching_eq (fs : FS) (d name : String) :
    removeAllMatching fs d name
      = fs.filter (fun e => !(e.1 == d && strContains e.2 name)) := by
  rw [removeAllMatching, foldl_fsRemove_eq]
  apply List.filter_congr
  intro e he
  cases hd : (e.1 == d)
  · simp
  · simp only [Bool.true_and]
    congr 1
    cases hm : strContains e.2 name
    · simp only [decide_eq_false_iff_not]
      intro hmem
      simp only [fsGlob, List.mem_map, List.mem_filter] at hmem
      obtain ⟨e', ⟨_, hp⟩, he2⟩ := hmem
      have := (Bool.and_eq_true _ _).mp hp
      rw [he2, hm] at this
      exact Bool.false_ne_true this.2
    · simp only [decide_eq_true_eq]
      exact mem_fsGlob_of fs d name e he (by simpa using hd) hm

theorem fsHas_removeAllMatching (fs : FS) (d name d' f : String) :
    fsHas (removeAllMatching fs d name) d' f
      = (fsHas fs d' f && !(d' == d && strContains f name)) := by
  rw [removeAllMatching_eq, Bool.eq_iff_iff]
  simp only [Bool.and_eq_true, fsHas_true_iff, List.mem_filter,
    Bool.not_eq_true', Bool.and_eq_false_iff, beq_eq_false_iff_ne, ne_eq]

/-- C5, counterexample: a single *enabled* record with a stale duplicate
in the disabled subdirectory.  The bulk update succeeds for the record,
yet the stale file under `.disabledmods` is still there afterwards: the
cleanup removes old files from the disabled subdirectory only for
records that were disabled at batch start, contrary to the claim's
"regardless of whether the record is currently enabled or disabled". -/
theorem bulk_update_stale_disabled_counterexample :
    (check_updates [("m.pak", mkRecord "m.pak" "P" true "u")]
        [("P", "m.pak"), ("P/.disabledmods", "m.pak")] "Pr" 5
        (fun _ => envOk ["m.pak"])).failed = []
    ∧ (check_updates [("m.pak", mkRecord "m.pak" "P" true "u")]
        [("P", "m.pak"), ("P/.disabledmods", "m.pak")] "Pr" 5
        (fun _ => envOk ["m.pak"])).completed = 1
    ∧ fsHas (check_updates [("m.pak", mkRecord "m.pak" "P" true "u")]
        [("P", "m.pak"), ("P/.disabledmods", "m.pak")] "Pr" 5
        (fun _ => envOk ["m.pak"])).fs "P/.disabledmods" "m.pak" = true := by
  decide

/-- C5 (amended): the per-record pre-download cleanup
(`removeAllMatching`, gui.py lines 540-558) removes every file matching
the record's name from the directory it is pointed at — the active
profile directory for every record, the disabled subdirectory only for
records disabled at batch start — and leaves every file of any other
directory untouched, so an enabled record's stale duplicate under
`.disabledmods` survives the whole update. -/
theorem bulk_cleanup_clears_target_directory_only (fs : FS) (d name : String) :
    fsGlob (removeAllMatching fs d name) d name = []
    ∧ (removeAllMatching fs d name).filter (fun e => e.1 != d)
        = fs.filter (fun e => e.1 != d) := by
  constructor
  · rw [removeAllMatching_eq, fsGlob, List.map_eq_nil_iff,
      List.filter_eq_nil_iff]
    intro e he
    have h2 := (List.mem_filter.mp he).2
    simp only [Bool.not_eq_true'] at h2
    rw [h2]
    exact Bool.false_ne_true
  · rw [removeAllMatching_eq, List.filter_filter]
    apply List.filter_congr
    intro e _
    cases hc : (e.1 == d) <;> simp [bne, hc]

/-! ## C6 — bulk-update progress accounting -/

theorem emitVal_false_eq (c : Nat) (pp : ℚ) (p : Nat) :
    emitVal c pp false p
      = ⌊min ((c : ℚ) * pp + (p : ℚ) / 100 * (pp / 2)) 100⌋ := by
  simp [emitVal]

theorem emitVal_true_eq (c : Nat) (pp : ℚ) (p : Nat) :
    emitVal c pp true p
      = ⌊min ((c : ℚ) * pp + (p : ℚ) / 100 * (pp / 2) + pp / 2) 100⌋ := by
  simp [emitVal]

theorem emitVal_mono (c : Nat) (pp : ℚ) (hpp : 0 ≤ pp) (b : Bool)
    (p q : Nat) (hpq : p ≤ q) :
    emitVal c pp b p ≤ emitVal c pp b q := by
  have hpq' : (p : ℚ) ≤ (q : ℚ) := by exact_mod_cast hpq
  have h1 : (p : ℚ) / 100 * (pp / 2) ≤ (q : ℚ) / 100 * (pp / 2) := by
    apply mul_le_mul_of_nonneg_right _ (by linarith)
    linarith
  cases b
  · rw [emitVal_false_eq, emitVal_false_eq]
    apply Int.floor_le_floor
    apply min_le_min _ le_rfl
    linarith
  · rw [emitVal_true_eq, emitVal_true_eq]
    apply Int.floor_le_floor
    apply min_le_min _ le_rfl
    linarith

theorem emitVal_false_le_true (c : Nat) (pp : ℚ) (hpp : 0 ≤ pp)
    (p q : Nat) (hp : p ≤ 100) :
    emitVal c pp false p ≤ emitVal c pp true q := by
  rw [emitVal_false_eq, emitVal_true_eq]
  apply Int.floor_le_floor
  apply min_le_min _ le_rfl
  have hp' : (p : ℚ) ≤ 100 := by exact_mod_cast hp
  have h1 : (p : ℚ) / 100 * (pp / 2) ≤ pp / 2 := by
    have : (p : ℚ) / 100 ≤ 1 := by linarith
    nlinarith
  have h2 : 0 ≤ (q : ℚ) / 100 * (pp / 2) := by
    apply mul_nonneg _ (by linarith)
    positivity
  linarith

theorem emitVal_le_next (c : Nat) (pp : ℚ) (hpp : 0 ≤ pp) (b : Bool)
    (p : Nat) (hp : p ≤ 100) :
    emitVal c pp b p ≤ ⌊((c : ℚ) + 1) * pp⌋ := by
  have hp' : (p : ℚ) ≤ 100 := by exact_mod_cast hp
  have h1 : (p : ℚ) / 100 * (pp / 2) ≤ pp / 2 := by
    have : (p : ℚ) / 100 ≤ 1 := by linarith
    nlinarith
  have h3 : ((c : ℚ) + 1) * pp = (c : ℚ) * pp + pp := by ring
  cases b
  · rw [emitVal_false_eq]
    apply Int.floor_le_floor
    apply le_trans (min_le_left _ _)
    linarith
  · rw [emitVal_true_eq]
    apply Int.floor_le_floor
    apply le_trans (min_le_left _ _)
    linarith

theorem emitVal_lb (c : Nat) (pp : ℚ) (hpp : 0 ≤ pp)
    (hc : (c : ℚ) * pp ≤ 100) (b : Bool) (p : Nat) :
    ⌊(c : ℚ) * pp⌋ ≤ emitVal c pp b p := by
  have h1 : 0 ≤ (p : ℚ) / 100 * (pp / 2) := by
    apply mul_nonneg _ (by linarith)
    positivity
  cases b
  · rw [emitVal_false_eq]
    apply Int.floor_le_floor
    apply le_min _ hc
    linarith
  · rw [emitVal_true_eq]
    apply Int.floor_le_floor
    apply le_min _ hc
    linarith

/-- The new progress values a successful record appends to the bar. -/
theorem processMod_success_shape (pp : ℚ) (dis : List (String × String))
    (now : Nat) (env : String → RecordEnv) (st : BulkSt)
    (m : String × ModRecord)
    (hurl : (m.2.url == "") = false)
    (hdl : (env m.1).dlOk = true)
    (hex : (env m.1).extracted.isEmpty = false) :
    (processMod pp dis now env st m).emitted
      = st.emitted ++ ((env m.1).dlProgress.map (emitVal st.completed pp false)
        ++ ((env m.1).exProgress.map (emitVal st.completed pp true)
        ++ [⌊((st.completed : ℚ) + 1) * pp⌋]))
    ∧ (processMod pp dis now env st m).completed = st.completed + 1
    ∧ (processMod pp dis now env st m).failed = st.failed := by
  refine ⟨?_, ?_, ?_⟩ <;>
    simp [processMod, hurl, hdl, hex, List.append_assoc]

/-- Hypotheses on one record of a fully successful bulk-update run: the
record resolves, downloads and extracts, and its progress callbacks
receive non-decreasing values in `[0, 100]`. -/
abbrev GoodRecord (env : String → RecordEnv) (m : String × ModRecord) : Prop :=
  (m.2.url == "") = false ∧ (env m.1).dlOk = true
  ∧ (env m.1).extracted.isEmpty = false
  ∧ leChainB (env m.1).dlProgress = true
  ∧ (env m.1).dlProgress.all (fun p => Nat.ble p 100) = true
  ∧ leChainB (env m.1).exProgress = true
  ∧ (env m.1).exProgress.all (fun p => Nat.ble p 100) = true

theorem leChainB_chain' : ∀ l : List Nat,
    leChainB l = true → List.Chain' (· ≤ ·) l
  | [], _ => List.chain'_nil
  | [a], _ => List.chain'_singleton a
  | a :: b :: t, h => by
      simp only [leChainB, Bool.and_eq_true] at h
      exact List.chain'_cons.mpr
        ⟨Nat.le_of_ble_eq_true h.1, leChainB_chain' (b :: t) h.2⟩

theorem allBle_le (l : List Nat) (h : l.all (fun p => Nat.ble p 100) = true) :
    ∀ p ∈ l, p ≤ 100 := by
  intro p hp
  have := List.all_eq_true.mp h p hp
  exact Nat.le_of_ble_eq_true this

theorem chain_block (c : Nat) (pp : ℚ) (hpp : 0 ≤ pp)
    (hc1 : ((c : ℚ) + 1) * pp ≤ 100)
    (dl ex : List Nat)
    (hdlc : List.Chain' (· ≤ ·) dl) (hdl100 : ∀ p ∈ dl, p ≤ 100)
    (hexc : List.Chain' (· ≤ ·) ex) (hex100 : ∀ p ∈ ex, p ≤ 100) :
    List.Chain' (· ≤ ·) (dl.map (emitVal c pp false)
      ++ (ex.map (emitVal c pp true) ++ [⌊((c : ℚ) + 1) * pp⌋]))
    ∧ (∀ x ∈ dl.map (emitVal c pp false)
        ++ (ex.map (emitVal c pp true) ++ [⌊((c : ℚ) + 1) * pp⌋]),
        ⌊(c : ℚ) * pp⌋ ≤ x) := by
  have hc0 : (c : ℚ) * pp ≤ 100 := by nlinarith
  constructor
  · rw [List.chain'_append]
    refine ⟨?_, ?_, ?_⟩
    · rw [List.chain'_map]
      exact hdlc.imp (fun a b h => emitVal_mono c pp hpp false a b h)
    · rw [List.chain'_append]
      refine ⟨?_, List.chain'_singleton _, ?_⟩
      · rw [List.chain'_map]
        exact hexc.imp (fun a b h => emitVal_mono c pp hpp true a b h)
      · intro x hx y hy
        simp only [List.head?_cons, Option.mem_def, Option.some.injEq] at hy
        subst hy
        have hx' := List.mem_of_mem_getLast? hx
        obtain ⟨q, hq, rfl⟩ := List.mem_map.mp hx'
        exact emitVal_le_next c pp hpp true q (hex100 q hq)
    · intro x hx y hy
      have hx' := List.mem_of_mem_getLast? hx
      obtain ⟨p, hp, rfl⟩ := List.mem_map.mp hx'
      have hy' := List.mem_of_mem_head? hy
      rcases List.mem_append.mp hy' with hy2 | hy2
      · obtain ⟨q, hq, rfl⟩ := List.mem_map.mp hy2
        exact emitVal_false_le_true c pp hpp p q (hdl100 p hp)
      · have : y = ⌊((c : ℚ) + 1) * pp⌋ := by simpa using hy2
        subst this
        exact emitVal_le_next c pp hpp false p (hdl100 p hp)
  · intro x hx
    rcases List.mem_append.mp hx with h | h
    · obtain ⟨p, _, rfl⟩ := List.mem_map.mp h
      exact emitVal_lb c pp hpp hc0 false p
    · rcases List.mem_append.mp h with h2 | h2
      · obtain ⟨q, _, rfl⟩ := List.mem_map.mp h2
        exact emitVal_lb c pp hpp hc0 true q
      · have : x = ⌊((c : ℚ) + 1) * pp⌋ := by simpa using h2
        subst this
        apply Int.floor_le_floor
        nlinarith

theorem bulk_fold_chain (pp : ℚ) (hpp : 0 ≤ pp)
    (dis : List (String × String)) (now : Nat) (env : String → RecordEnv) :
    ∀ (l : List (String × ModRecord)) (st : BulkSt),
      (∀ m ∈ l, GoodRecord env m) →
      ((st.completed : ℚ) + l.length) * pp ≤ 100 →
      List.Chain' (· ≤ ·) st.emitted →
      (∀ x ∈ st.emitted.getLast?, x ≤ ⌊(st.completed : ℚ) * pp⌋) →
      List.Chain' (· ≤ ·) (l.foldl (processMod pp dis now env) st).emitted
      ∧ (l.foldl (processMod pp dis now env) st).completed
          = st.completed + l.length
      ∧ (l.foldl (processMod pp dis now env) st).failed = st.failed
      ∧ (∀ x ∈ (l.foldl (processMod pp dis now env) st).emitted.getLast?,
          x ≤ ⌊((l.foldl (processMod pp dis now env) st).completed : ℚ) * pp⌋)
      := by
  intro l
  induction l with
  | nil =>
      intro st _ _ hchain hlast
      exact ⟨hchain, by simp, rfl, by simpa using hlast⟩
  | cons m rest ih =>
      intro st hgood hbound hchain hlast
      obtain ⟨hurl, hdl, hex, hdlcB, hdl100B, hexcB, hex100B⟩ :=
        hgood m (List.mem_cons_self m rest)
      have hdlc := leChainB_chain' _ hdlcB
      have hdl100 := allBle_le _ hdl100B
      have hexc := leChainB_chain' _ hexcB
      have hex100 := allBle_le _ hex100B
      obtain ⟨hsh, hco, hfa⟩ :=
        processMod_success_shape pp dis now env st m hurl hdl hex
      have hc1 : ((st.completed : ℚ) + 1) * pp ≤ 100 := by
        have hrl : 0 ≤ (rest.length : ℚ) * pp :=
          mul_nonneg (by positivity) hpp
        have hexp : ((st.completed : ℚ) + ((m :: rest).length : ℚ)) * pp
            = ((st.completed : ℚ) + 1) * pp + (rest.length : ℚ) * pp := by
          simp only [List.length_cons]
          push_cast
          ring
        linarith [hbound, hrl, hexp]
      obtain ⟨hbc, hbl⟩ := chain_block st.completed pp hpp hc1
        (env m.1).dlProgress (env m.1).exProgress hdlc hdl100 hexc hex100
      have hchain' : List.Chain' (· ≤ ·) (processMod pp dis now env st m).emitted := by
        rw [hsh, List.chain'_append]
        refine ⟨hchain, hbc, ?_⟩
        intro x hx y hy
        have hxle := hlast x hx
        have hy' := List.mem_of_mem_head? hy
        exact le_trans hxle (hbl y hy')
      have hlast' : ∀ x ∈ (processMod pp dis now env st m).emitted.getLast?,
          x ≤ ⌊(((processMod pp dis now env st m).completed : ℚ)) * pp⌋ := by
        intro x hx
        rw [hsh] at hx
        rw [← List.append_assoc, ← List.append_assoc, List.getLast?_concat] at hx
        simp only [Option.mem_def, Option.some.injEq] at hx
        subst hx
        rw [hco]
        apply Int.floor_le_floor
        push_cast
        linarith
      have hrest : ∀ m' ∈ rest, GoodRecord env m' :=
        fun m' hm' => hgood m' (List.mem_cons_of_mem m hm')
      have hbound' :
          (((processMod pp dis now env st m).completed : ℚ) + rest.length) * pp
            ≤ 100 := by
        rw [hco]
        have : ((st.completed : ℚ) + (m :: rest).length) * pp
            = (((st.completed + 1 : Nat) : ℚ) + rest.length) * pp := by
          simp only [List.length_cons]
          push_cast
          ring
        linarith [this ▸ hbound]
      obtain ⟨h1, h2, h3, h4⟩ := ih (processMod pp dis now env st m)
        hrest hbound' hchain' hlast'
      rw [List.foldl_cons]
      refine ⟨h1, ?_, h3.trans hfa, h4⟩
      rw [h2, hco]
      simp only [List.length_cons]
      omega

/-- C6, counterexample: with two records where the first record's
archive extracts to nothing (a failure), `completed` is not advanced
(the `continue` at line 632 skips line 638), so the second record's
download progress restarts from the first record's share: the reported
sequence is `[0, 25, 0, 25, 50, 50]`, which decreases from 25 to 0 —
the claim's monotonicity "including runs in which some records fail"
does not hold.  (All progress callbacks in the run report monotone
values in `[0, 100]`.) -/
theorem bulk_progress_counterexample :
    (check_updates
        [("m1.pak", mkRecord "m1.pak" "P" true "u"),
         ("m2.pak", mkRecord "m2.pak" "P" true "u")]
        [("P", "m1.pak"), ("P", "m2.pak")] "Pr" 5
        (fun mid => if mid == "m1.pak"
          then { envOk [] with dlProgress := [100] }
          else { envOk ["m2.pak"] with
                 dlProgress := [0, 100]
                 exProgress := [100] })).emitted
      = [0, 25, 0, 25, 50, 50]
    ∧ ¬ List.Chain' (· ≤ ·) (check_updates
        [("m1.pak", mkRecord "m1.pak" "P" true "u"),
         ("m2.pak", mkRecord "m2.pak" "P" true "u")]
        [("P", "m1.pak"), ("P", "m2.pak")] "Pr" 5
        (fun mid => if mid == "m1.pak"
          then { envOk [] with dlProgress := [100] }
          else { envOk ["m2.pak"] with
                 dlProgress := [0, 100]
                 exProgress := [100] })).emitted := by
  have h : (check_updates
        [("m1.pak", mkRecord "m1.pak" "P" true "u"),
         ("m2.pak", mkRecord "m2.pak" "P" true "u")]
        [("P", "m1.pak"), ("P", "m2.pak")] "Pr" 5
        (fun mid => if mid == "m1.pak"
          then { envOk [] with dlProgress := [100] }
          else { envOk ["m2.pak"] with
                 dlProgress := [0, 100]
                 exProgress := [100] })).emitted = [0, 25, 0, 25, 50, 50] := by
    simp only [check_updates, processMod, envOk, mkRecord, removeAllMatching,
      fsGlob, fsRemove, fsAdd, fsMove, fsHas, registerExtracted, strContains,
      containsL, startsWithL, disabledDirOf, dbInsert,
      List.foldl, List.filter, List.map, List.find?, List.isEmpty,
      List.any, List.append, List.length, Option.isSome]
    norm_num [emitVal, (by decide : ("u" : String) ≠ ""),
      (by decide : ("m2.pak" : String) ≠ "m1.pak")]
  refine ⟨h, ?_⟩
  rw [h]
  intro hc
  have h1 := (List.chain'_cons.mp hc).2
  have h2 := (List.chain'_cons.mp h1).1
  omega

/-- C6 (amended): in a bulk-update run in which **every** record of the
profile succeeds (non-empty URL, download succeeds, extraction produces
files) and every progress callback reports monotone values in
`[0, 100]`, the sequence of values pushed to the overall progress bar is
monotonically non-decreasing, each record owning the `100/n` share
`[completed·100/n, (completed+1)·100/n]` with download in the first half
and extraction in the second.  When a record fails, `completed` is not
advanced, so the next record reuses the same share and the reported
progress can decrease. -/
theorem bulk_progress_monotone_on_success (db : DB) (fs : FS)
    (pname : String) (now : Nat) (env : String → RecordEnv)
    (H : ∀ m ∈ db.filter (fun p => p.2.profile == pname), GoodRecord env m) :
    List.Chain' (· ≤ ·) (check_updates db fs pname now env).emitted := by
  by_cases hmods : (db.filter (fun p => p.2.profile == pname)).isEmpty
  · simp [check_updates, hmods]
  · have hne : db.filter (fun p => p.2.profile == pname) ≠ [] := by
      intro hc
      rw [hc] at hmods
      exact hmods rfl
    have hn0 : ((db.filter (fun p => p.2.profile == pname)).length : ℚ) ≠ 0 := by
      have := List.length_pos.mpr hne
      positivity
    have hpp : 0 ≤ (100 : ℚ) / (db.filter (fun p => p.2.profile == pname)).length := by
      positivity
    have hbound : (((0 : Nat) : ℚ)
        + (db.filter (fun p => p.2.profile == pname)).length)
        * ((100 : ℚ) / (db.filter (fun p => p.2.profile == pname)).length)
          ≤ 100 := by
      rw [Nat.cast_zero, zero_add, mul_div_cancel₀ _ hn0]
    obtain ⟨hchain, hcomp, hfail, hlast⟩ := bulk_fold_chain
      ((100 : ℚ) / (db.filter (fun p => p.2.profile == pname)).length) hpp
      (disabledModsOf (db.filter (fun p => p.2.profile == pname)))
      now env (db.filter (fun p => p.2.profile == pname))
      { db := db, fs := fs, completed := 0, failed := [], emitted := [0]
        attempted := [] }
      H hbound (List.chain'_singleton 0) (by
        intro x hx
        simp only [List.getLast?_singleton, Option.mem_def,
          Option.some.injEq] at hx
        subst hx
        simp)
    set final := (db.filter (fun p => p.2.profile == pname)).foldl
      (processMod ((100 : ℚ) / (db.filter (fun p => p.2.profile == pname)).length)
        (disabledModsOf (db.filter (fun p => p.2.profile == pname)))
        now env)
      { db := db, fs := fs, completed := 0, failed := [], emitted := [0]
        attempted := [] } with hfinal
    have hres : (check_updates db fs pname now env).emitted
        = final.emitted ++ [100] := by
      rw [check_updates]
      simp only [hmods, Bool.false_eq_true, if_false, ← hfinal]
      have h1 : (final.completed
          == (db.filter (fun p => p.2.profile == pname)).length) = true := by
        simp [hcomp]
      have h2 : final.failed.isEmpty = true := by
        rw [hfail]
        rfl
      simp [h1, h2]
    rw [hres, List.chain'_append]
    refine ⟨hchain, List.chain'_singleton _, ?_⟩
    intro x hx y hy
    simp only [List.head?_cons, Option.mem_def, Option.some.injEq] at hy
    subst hy
    have hx' := hlast x hx
    have hfloor : ⌊((final.completed : ℚ))
        * ((100 : ℚ) / (db.filter (fun p => p.2.profile == pname)).length)⌋
          = 100 := by
      rw [hcomp]
      simp only [Nat.cast_add, Nat.cast_zero, zero_add]
      rw [mul_div_cancel₀ _ hn0]
      norm_num
    rw [hfloor] at hx'
    exact hx'

/-- C6, witness for the amended theorem: a fully successful two-record
run produces a monotone progress sequence. -/
theorem bulk_progress_monotone_on_success_witness :
    List.Chain' (· ≤ ·) (check_updates
        [("m1.pak", mkRecord "m1.pak" "P" true "u"),
         ("m2.pak", mkRecord "m2.pak" "P" true "u")]
        [("P", "m1.pak"), ("P", "m2.pak")] "Pr" 5
        (fun mid => if mid == "m1.pak"
          then { envOk ["m1.pak"] with
                 dlProgress := [50, 100]
                 exProgress := [100] }
          else { envOk ["m2.pak"] with
                 dlProgress := [0, 100]
                 exProgress := [40, 100] })).emitted :=
  bulk_progress_monotone_on_success _ _ "Pr" 5 _ (by decide)

/-! ## C8/C9 — frame and registration lemmas for the bulk-update fold -/

theorem fsHas_foldl_fsAdd_mono (pd : String) :
    ∀ (l : List String) (fs : FS) (d f : String),
      fsHas fs d f = true →
      fsHas (l.foldl (fun acc g => fsAdd acc pd g) fs) d f = true := by
  intro l
  induction l with
  | nil => intro fs d f h; exact h
  | cons g rest ih =>
      intro fs d f h
      rw [List.foldl_cons]
      apply ih
      rw [fsHas_fsAdd, h]
      simp

theorem fsHas_foldl_fsAdd_mem (pd : String) :
    ∀ (l : List String) (fs : FS) (f : String), f ∈ l →
      fsHas (l.foldl (fun acc g => fsAdd acc pd g) fs) pd f = true := by
  intro l
  induction l with
  | nil => intro fs f h; exact absurd h (List.not_mem_nil f)
  | cons g rest ih =>
      intro fs f h
      rw [List.foldl_cons]
      rcases List.mem_cons.mp h with rfl | h2
      · apply fsHas_foldl_fsAdd_mono
        rw [fsHas_fsAdd]
        simp
      · exact ih _ f h2

theorem fsHas_foldl_fsAdd_frame (pd : String) :
    ∀ (l : List String) (fs : FS) (d f : String), f ∉ l →
      fsHas (l.foldl (fun acc g => fsAdd acc pd g) fs) d f = fsHas fs d f := by
  intro l
  induction l with
  | nil => intro fs d f _; rfl
  | cons g rest ih =>
      intro fs d f h
      rw [List.foldl_cons, ih _ _ _ (fun hc => h (List.mem_cons_of_mem g hc))]
      rw [fsHas_fsAdd]
      have hgf : (g == f) = false :=
        beq_eq_false_iff_ne.mpr (fun hc => h (hc ▸ List.mem_cons_self g rest))
      rw [hgf]
      simp

theorem fsHas_moveChoice_frame (e : RecordEnv) (fs : FS)
    (pd dd g d f : String) (hne : g ≠ f) :
    fsHas (if e.renameOk then fsMove fs pd g dd g
      else if e.copyOk then
        if e.unlinkOk then fsMove fs pd g dd g else fsAdd fs dd g
      else fs) d f = fsHas fs d f := by
  have hmove : fsHas (fsMove fs pd g dd g) d f = fsHas fs d f := by
    rw [fsHas_fsMove_other]
    · exact fun hc => hne hc.2
    · exact fun hc => hne hc.2
  have hadd : fsHas (fsAdd fs dd g) d f = fsHas fs d f := by
    rw [fsHas_fsAdd]
    have hb : (g == f) = false := beq_eq_false_iff_ne.mpr hne
    rw [hb]
    simp
  cases e.renameOk <;> cases e.copyOk <;> cases e.unlinkOk <;>
    simp [hmove, hadd]

theorem registerExtracted_db_frame (rec : ModRecord) (pd dd : String)
    (now : Nat) (wd : Bool) (e : RecordEnv) :
    ∀ (l : List String) (db : DB) (fs : FS) (f : String), f ∉ l →
      dbFind (registerExtracted rec pd dd now wd e (db, fs) l).1 f
        = dbFind db f := by
  intro l
  induction l with
  | nil => intro db fs f _; rfl
  | cons g rest ih =>
      intro db fs f h
      have hgf : f ≠ g := fun hc => h (hc ▸ List.mem_cons_self g rest)
      have hrest : f ∉ rest := fun hc => h (List.mem_cons_of_mem g hc)
      rw [registerExtracted]
      cases hfs : fsHas fs pd g
      · simpa [hfs] using ih _ _ f hrest
      · simp only [hfs, eq_self_iff_true, if_true]
        rw [ih _ _ f hrest, dbFind_dbInsert_other _ _ _ _ hgf]

theorem registerExtracted_fs_frame (rec : ModRecord) (pd dd : String)
    (now : Nat) (wd : Bool) (e : RecordEnv) :
    ∀ (l : List String) (db : DB) (fs : FS) (d f : String), f ∉ l →
      fsHas (registerExtracted rec pd dd now wd e (db, fs) l).2 d f
        = fsHas fs d f := by
  intro l
  induction l with
  | nil => intro db fs d f _; rfl
  | cons g rest ih =>
      intro db fs d f h
      have hgf : f ≠ g := fun hc => h (hc ▸ List.mem_cons_self g rest)
      have hrest : f ∉ rest := fun hc => h (List.mem_cons_of_mem g hc)
      rw [registerExtracted]
      cases hfs : fsHas fs pd g
      · simpa [hfs] using ih _ _ _ f hrest
      · simp only [hfs, eq_self_iff_true, if_true]
        rw [ih _ _ _ f hrest]
        cases wd
        · simp
        · simp only [if_true]
          exact fsHas_moveChoice_frame e fs pd dd g d f (Ne.symm hgf)

theorem registerExtracted_fs_enabled (rec : ModRecord) (pd dd : String)
    (now : Nat) (e : RecordEnv) :
    ∀ (l : List String) (db : DB) (fs : FS),
      (registerExtracted rec pd dd now false e (db, fs) l).2 = fs := by
  intro l
  induction l with
  | nil => intro db fs; rfl
  | cons g rest ih =>
      intro db fs
      rw [registerExtracted]
      cases hfs : fsHas fs pd g <;> simp [hfs, ih]

theorem registerExtracted_spec (rec : ModRecord) (pd dd : String)
    (now : Nat) (wd : Bool) (e : RecordEnv) (hpd : pd ≠ dd) :
    ∀ (l : List String) (db : DB) (fs : FS), l.Nodup →
      (∀ g ∈ l, fsHas fs pd g = true) →
      ∀ f ∈ l,
        dbFind (registerExtracted rec pd dd now wd e (db, fs) l).1 f
          = some { rec with
                   local_name := f
                   updated_date := now
                   enabled := !wd }
        ∧ (wd = true → moveEff e = true →
            fsHas (registerExtracted rec pd dd now wd e (db, fs) l).2 dd f
                = true
            ∧ fsHas (registerExtracted rec pd dd now wd e (db, fs) l).2 pd f
                = false) := by
  intro l
  induction l with
  | nil => intro db fs _ _ f hf; exact absurd hf (List.not_mem_nil f)
  | cons g rest ih =>
      intro db fs hnodup hall f hf
      have hg : fsHas fs pd g = true := hall g (List.mem_cons_self g rest)
      have hnd := List.nodup_cons.mp hnodup
      rcases List.mem_cons.mp hf with rfl | hfr
      · -- f = g: written at this step, untouched by the rest
        have hfrest : f ∉ rest := hnd.1
        rw [registerExtracted]
        simp only [hg, eq_self_iff_true, if_true]
        constructor
        · rw [registerExtracted_db_frame _ _ _ _ _ _ _ _ _ _ hfrest,
            dbFind_dbInsert_self]
        · intro hwd hmv
          subst hwd
          simp only [if_true]
          have hmove :
              (if e.renameOk then fsMove fs pd f dd f
               else if e.copyOk then
                 if e.unlinkOk then fsMove fs pd f dd f else fsAdd fs dd f
               else fs) = fsMove fs pd f dd f := by
            rcases (by simpa [moveEff] using hmv :
                e.renameOk = true ∨ (e.copyOk = true ∧ e.unlinkOk = true))
              with h | ⟨h1, h2⟩
            · rw [h]
              simp
            · rw [h1, h2]
              cases e.renameOk <;> simp
          rw [hmove]
          constructor
          · rw [registerExtracted_fs_frame _ _ _ _ _ _ _ _ _ _ _ hfrest,
              fsHas_fsMove_self]
          · rw [registerExtracted_fs_frame _ _ _ _ _ _ _ _ _ _ _ hfrest,
              fsHas_fsMove_src]
            intro hc
            exact hpd (congrArg Prod.fst hc)
      · -- f strictly later in the list
        rw [registerExtracted]
        simp only [hg, eq_self_iff_true, if_true]
        have hall' : ∀ g' ∈ rest,
            fsHas (if wd then
              (if e.renameOk then fsMove fs pd g dd g
               else if e.copyOk then
                 if e.unlinkOk then fsMove fs pd g dd g else fsAdd fs dd g
               else fs)
              else fs) pd g' = true := by
          intro g' hg'
          have hne : g ≠ g' := fun hc => hnd.1 (hc ▸ hg')
          have hbase := hall g' (List.mem_cons_of_mem g hg')
          cases wd
          · simpa using hbase
          · simp only [if_true]
            rw [fsHas_moveChoice_frame e fs pd dd g pd g' hne]
            exact hbase
        cases wd
        · simpa using ih _ _ hnd.2 (by simpa using hall') f hfr
        · simpa using ih _ _ hnd.2 (by simpa using hall') f hfr

theorem processMod_db_frame (pp : ℚ) (dis : List (String × String))
    (now : Nat) (env : String → RecordEnv) (st : BulkSt)
    (m' : String × ModRecord) (f : String)
    (h3 : f ∉ (env m'.1).extracted) :
    dbFind (processMod pp dis now env st m').db f = dbFind st.db f := by
  simp only [processMod]
  cases hu : (m'.2.url == "")
  · simp only [hu, Bool.false_eq_true, if_false]
    cases hdl : (env m'.1).dlOk
    · simp
    · simp only [hdl, Bool.not_true, Bool.false_eq_true, if_false]
      cases hex : (env m'.1).extracted.isEmpty
      · simp only [hex, Bool.false_eq_true, if_false]
        exact registerExtracted_db_frame _ _ _ _ _ _ _ _ _ f h3
      · simp
  · simp

theorem fsHas_matchCleanup (dis : List (String × String)) (k : String)
    (fs : FS) (dd d f : String)
    (h1 : ∀ p ∈ dis, p.1 = k → strContains f p.2 = false) :
    fsHas (match dis.find? (fun p => p.1 == k) with
      | some p => removeAllMatching fs dd p.2
      | none => fs) d f = fsHas fs d f := by
  cases hfind : dis.find? (fun p => p.1 == k) with
  | none => rfl
  | some p =>
      have hpk : p.1 = k := by simpa using List.find?_some hfind
      have hpm : p ∈ dis := List.mem_of_find?_eq_some hfind
      have hc : strContains f p.2 = false := h1 p hpm hpk
      simp only []
      rw [fsHas_removeAllMatching, hc]
      simp

theorem processMod_fs_frame (pp : ℚ) (dis : List (String × String))
    (now : Nat) (env : String → RecordEnv) (st : BulkSt)
    (m' : String × ModRecord) (d f : String)
    (h1 : ∀ p ∈ dis, p.1 = m'.1 → strContains f p.2 = false)
    (h2 : strContains f (m'.2.local_name) = false)
    (h3 : f ∉ (env m'.1).extracted) :
    fsHas (processMod pp dis now env st m').fs d f = fsHas st.fs d f := by
  simp only [processMod]
  cases hu : (m'.2.url == "")
  · simp only [hu, Bool.false_eq_true, if_false]
    have hfs1 : ∀ fsx : FS, fsHas (removeAllMatching fsx
        m'.2.installed_path m'.2.local_name) d f = fsHas fsx d f := by
      intro fsx
      rw [fsHas_removeAllMatching, h2]
      simp
    cases hdl : (env m'.1).dlOk
    · simp only [hdl, Bool.not_false, if_true]
      rw [hfs1, fsHas_matchCleanup dis m'.1 st.fs _ d f h1]
    · simp only [hdl, Bool.not_true, Bool.false_eq_true, if_false]
      cases hex : (env m'.1).extracted.isEmpty
      · simp only [hex, Bool.false_eq_true, if_false]
        rw [registerExtracted_fs_frame _ _ _ _ _ _ _ _ _ _ f h3,
          fsHas_foldl_fsAdd_frame _ _ _ _ _ h3, hfs1,
          fsHas_matchCleanup dis m'.1 st.fs _ d f h1]
      · simp only [hex, if_true]
        rw [fsHas_foldl_fsAdd_frame _ _ _ _ _ h3, hfs1,
          fsHas_matchCleanup dis m'.1 st.fs _ d f h1]
  · simp

theorem foldl_processMod_db_frame (pp : ℚ) (dis : List (String × String))
    (now : Nat) (env : String → RecordEnv) :
    ∀ (l : List (String × ModRecord)) (st : BulkSt) (f : String),
      (∀ m' ∈ l, f ∉ (env m'.1).extracted) →
      dbFind (l.foldl (processMod pp dis now env) st).db f
        = dbFind st.db f := by
  intro l
  induction l with
  | nil => intro st f _; rfl
  | cons m' rest ih =>
      intro st f h
      rw [List.foldl_cons,
        ih _ f (fun x hx => h x (List.mem_cons_of_mem m' hx)),
        processMod_db_frame _ _ _ _ _ _ f (h m' (List.mem_cons_self m' rest))]

theorem foldl_processMod_fs_frame (pp : ℚ) (dis : List (String × String))
    (now : Nat) (env : String → RecordEnv) :
    ∀ (l : List (String × ModRecord)) (st : BulkSt) (d f : String),
      (∀ m' ∈ l, (∀ p ∈ dis, p.1 = m'.1 → strContains f p.2 = false)
        ∧ strContains f (m'.2.local_name) = false
        ∧ f ∉ (env m'.1).extracted) →
      fsHas (l.foldl (processMod pp dis now env) st).fs d f
        = fsHas st.fs d f := by
  intro l
  induction l with
  | nil => intro st d f _; rfl
  | cons m' rest ih =>
      intro st d f h
      obtain ⟨ha, hb, hc⟩ := h m' (List.mem_cons_self m' rest)
      rw [List.foldl_cons,
        ih _ d f (fun x hx => h x (List.mem_cons_of_mem m' hx)),
        processMod_fs_frame _ _ _ _ _ _ d f ha hb hc]

theorem find?_none_of_keys (l : List (String × String)) (k : String)
    (h : ∀ p ∈ l, p.1 ≠ k) :
    l.find? (fun p => p.1 == k) = none := by
  rw [List.find?_eq_none]
  intro p hp
  simpa using h p hp

theorem disabledModsOf_mem (mods : List (String × ModRecord))
    (p : String × String) (hp : p ∈ disabledModsOf mods) :
    ∃ m'' ∈ mods, p = (m''.1, m''.2.local_name) ∧ m''.2.enabled = false := by
  simp only [disabledModsOf, List.mem_map, List.mem_filter] at hp
  obtain ⟨m'', ⟨hm, he⟩, rfl⟩ := hp
  exact ⟨m'', hm, rfl, by simpa using he⟩

theorem keyUnique : ∀ (l : List (String × ModRecord)),
    (l.map (·.1)).Nodup → ∀ a ∈ l, ∀ b ∈ l, a.1 = b.1 → a = b := by
  intro l
  induction l with
  | nil => intro _ a ha; exact absurd ha (List.not_mem_nil a)
  | cons x rest ih =>
      intro hnd a ha b hb hab
      rw [List.map_cons] at hnd
      have hnd' := List.nodup_cons.mp hnd
      rcases List.mem_cons.mp ha with rfl | ha2 <;>
        rcases List.mem_cons.mp hb with rfl | hb2
      · rfl
      · exact absurd (by rw [hab]; exact List.mem_map_of_mem (·.1) hb2 :
          a.1 ∈ rest.map (·.1)) hnd'.1
      · exact absurd (by rw [← hab]; exact List.mem_map_of_mem (·.1) ha2 :
          b.1 ∈ rest.map (·.1)) hnd'.1
      · exact ih hnd'.2 a ha2 b hb2 hab

theorem disabledFind_eq (mods : List (String × ModRecord))
    (hkeys : (mods.map (·.1)).Nodup) (m : String × ModRecord)
    (hm : m ∈ mods) :
    (disabledModsOf mods).find? (fun p => p.1 == m.1)
      = if m.2.enabled then none else some (m.1, m.2.local_name) := by
  cases he : m.2.enabled
  · simp only [Bool.false_eq_true, if_false]
    have hmem : (m.1, m.2.local_name) ∈ disabledModsOf mods := by
      simp only [disabledModsOf, List.mem_map, List.mem_filter]
      exact ⟨m, ⟨hm, by simp [he]⟩, rfl⟩
    have hsome : ((disabledModsOf mods).find? (fun p => p.1 == m.1)).isSome
        = true := by
      rw [List.find?_isSome]
      exact ⟨(m.1, m.2.local_name), hmem, by simp⟩
    obtain ⟨p, hp⟩ := Option.isSome_iff_exists.mp hsome
    have hpk : p.1 = m.1 := by simpa using List.find?_some hp
    obtain ⟨m'', hm'', hpe, hen⟩ :=
      disabledModsOf_mem mods p (List.mem_of_find?_eq_some hp)
    have hmm : m'' = m := by
      apply keyUnique mods hkeys m'' hm'' m hm
      rw [hpe] at hpk
      exact hpk
    rw [hp, hpe, hmm]
  · simp only [if_true]
    apply find?_none_of_keys
    intro p hp hpk
    obtain ⟨m'', hm'', hpe, hen⟩ := disabledModsOf_mem mods p hp
    have hmm : m'' = m := by
      apply keyUnique mods hkeys m'' hm'' m hm
      rw [hpe] at hpk
      exact hpk
    rw [hmm, he] at hen
    exact absurd hen (by decide)

theorem disabledFind_isSome (mods : List (String × ModRecord))
    (hkeys : (mods.map (·.1)).Nodup) (m : String × ModRecord)
    (hm : m ∈ mods) :
    ((disabledModsOf mods).find? (fun p => p.1 == m.1)).isSome
      = !m.2.enabled := by
  rw [disabledFind_eq mods hkeys m hm]
  cases m.2.enabled <;> simp

theorem processMod_self (pp : ℚ) (dis : List (String × String)) (now : Nat)
    (env : String → RecordEnv) (st : BulkSt) (m : String × ModRecord)
    (hurl : (m.2.url == "") = false)
    (hdl : (env m.1).dlOk = true)
    (hex : (env m.1).extracted.isEmpty = false)
    (hnodup : (env m.1).extracted.Nodup)
    (f : String) (hf : f ∈ (env m.1).extracted) :
    dbFind (processMod pp dis now env st m).db f
      = some { m.2 with
               local_name := f
               updated_date := now
               enabled := !((dis.find? (fun p => p.1 == m.1)).isSome) }
    ∧ ((dis.find? (fun p => p.1 == m.1)).isSome = true →
        moveEff (env m.1) = true →
        fsHas (processMod pp dis now env st m).fs
            (disabledDirOf m.2.installed_path) f = true
        ∧ fsHas (processMod pp dis now env st m).fs
            m.2.installed_path f = false)
    ∧ ((dis.find? (fun p => p.1 == m.1)).isSome = false →
        fsHas (processMod pp dis now env st m).fs
            m.2.installed_path f = true) := by
  have hall : ∀ g ∈ (env m.1).extracted,
      fsHas ((env m.1).extracted.foldl
        (fun acc g => fsAdd acc m.2.installed_path g)
        (removeAllMatching
          (match dis.find? (fun p => p.1 == m.1) with
           | some p => removeAllMatching st.fs
               (disabledDirOf m.2.installed_path) p.2
           | none => st.fs)
          m.2.installed_path m.2.local_name)) m.2.installed_path g
        = true :=
    fun g hg => fsHas_foldl_fsAdd_mem _ _ _ g hg
  have hspec := registerExtracted_spec m.2 m.2.installed_path
    (disabledDirOf m.2.installed_path) now
    ((dis.find? (fun p => p.1 == m.1)).isSome) (env m.1)
    (ne_disabledDirOf m.2.installed_path) (env m.1).extracted st.db _
    hnodup hall f hf
  refine ⟨?_, ?_, ?_⟩
  · simp only [processMod, hurl, Bool.false_eq_true, if_false, hdl,
      Bool.not_true, hex]
    exact hspec.1
  · intro hwd hmv
    have h2 := hspec.2 hwd hmv
    simp only [processMod, hurl, Bool.false_eq_true, if_false, hdl,
      Bool.not_true, hex]
    exact h2
  · intro hwd
    simp only [processMod, hurl, Bool.false_eq_true, if_false, hdl,
      Bool.not_true, hex]
    rw [hwd, registerExtracted_fs_enabled]
    exact hall f hf

theorem bulk_aux_reflect (pp : ℚ) (dis : List (String × String)) (now : Nat)
    (env : String → RecordEnv) :
    ∀ (l : List (String × ModRecord)) (st : BulkSt)
      (m : String × ModRecord) (f : String),
      m ∈ l →
      (l.map (·.1)).Nodup →
      (∀ m' ∈ l, m'.1 ≠ m.1 →
        (∀ p ∈ dis, p.1 = m'.1 → strContains f p.2 = false)
        ∧ strContains f (m'.2.local_name) = false
        ∧ f ∉ (env m'.1).extracted) →
      (m.2.url == "") = false → (env m.1).dlOk = true →
      (env m.1).extracted.isEmpty = false →
      (env m.1).extracted.Nodup → f ∈ (env m.1).extracted →
      (dbFind (l.foldl (processMod pp dis now env) st).db f
        = some { m.2 with
                 local_name := f
                 updated_date := now
                 enabled := !((dis.find? (fun p => p.1 == m.1)).isSome) })
      ∧ ((dis.find? (fun p => p.1 == m.1)).isSome = true →
          moveEff (env m.1) = true →
          fsHas (l.foldl (processMod pp dis now env) st).fs
              (disabledDirOf m.2.installed_path) f = true
          ∧ fsHas (l.foldl (processMod pp dis now env) st).fs
              m.2.installed_path f = false)
      ∧ ((dis.find? (fun p => p.1 == m.1)).isSome = false →
          fsHas (l.foldl (processMod pp dis now env) st).fs
              m.2.installed_path f = true) := by
  intro l
  induction l with
  | nil => intro st m f hm; exact absurd hm (List.not_mem_nil m)
  | cons m₀ rest ih =>
      intro st m f hm hkeys hsep hurl hdl hex hnodup hf
      rw [List.map_cons] at hkeys
      have hkeys' := List.nodup_cons.mp hkeys
      by_cases hm0 : m₀ = m
      · subst hm0
        have hself := processMod_self pp dis now env st m₀ hurl hdl hex
          hnodup f hf
        have hrestkeys : ∀ m' ∈ rest, m'.1 ≠ m₀.1 := by
          intro m' hm' hc
          exact hkeys'.1 (hc ▸ List.mem_map_of_mem (·.1) hm')
        have hframe : ∀ m' ∈ rest,
            (∀ p ∈ dis, p.1 = m'.1 → strContains f p.2 = false)
            ∧ strContains f (m'.2.local_name) = false
            ∧ f ∉ (env m'.1).extracted := by
          intro m' hm'
          exact hsep m' (List.mem_cons_of_mem m₀ hm') (hrestkeys m' hm')
        have hdbfr := foldl_processMod_db_frame pp dis now env rest
          (processMod pp dis now env st m₀) f
          (fun m' hm' => (hframe m' hm').2.2)
        have hfsfr := foldl_processMod_fs_frame pp dis now env rest
          (processMod pp dis now env st m₀)
        rw [List.foldl_cons]
        refine ⟨?_, ?_, ?_⟩
        · rw [hdbfr]
          exact hself.1
        · intro hwd hmv
          obtain ⟨ha, hb⟩ := hself.2.1 hwd hmv
          rw [hfsfr _ f hframe, hfsfr _ f hframe]
          exact ⟨ha, hb⟩
        · intro hwd
          rw [hfsfr _ f hframe]
          exact hself.2.2 hwd
      · have hmr : m ∈ rest := by
          rcases List.mem_cons.mp hm with h | h
          · exact absurd h.symm hm0
          · exact h
        rw [List.foldl_cons]
        exact ih (processMod pp dis now env st m₀) m f hmr hkeys'.2
          (fun m' hm' => hsep m' (List.mem_cons_of_mem m₀ hm'))
          hurl hdl hex hnodup hf

theorem bulk_accounting (pp : ℚ) (dis : List (String × String)) (now : Nat)
    (env : String → RecordEnv) :
    ∀ (l : List (String × ModRecord)) (st : BulkSt),
      ((l.foldl (processMod pp dis now env) st).failed
        = st.failed ++ (l.filter (fun x => !recSucceeds env x)).map
            (fun x => (x.1, failCause env x)))
      ∧ ((l.foldl (processMod pp dis now env) st).completed
        = st.completed + (l.filter (fun x => recSucceeds env x)).length)
      ∧ ((l.foldl (processMod pp dis now env) st).attempted
        = st.attempted ++ (l.filter (fun x => x.2.url != "")).map (·.1)) := by
  intro l
  induction l with
  | nil => intro st; simp
  | cons m rest ih =>
      intro st
      rw [List.foldl_cons]
      obtain ⟨ihf, ihc, iha⟩ := ih (processMod pp dis now env st m)
      cases hu : (m.2.url == "")
      · cases hdl : (env m.1).dlOk
        · -- download fails
          have hsucc : recSucceeds env m = false := by
            simp [recSucceeds, hdl]
          have hcause : failCause env m = (env m.1).dlErr := by
            simp [failCause, hu, hdl]
          have hf1 : (processMod pp dis now env st m).failed
              = st.failed ++ [(m.1, (env m.1).dlErr)] := by
            simp only [processMod, hu, Bool.false_eq_true, if_false, hdl,
              Bool.not_false, if_true]
          have hc1 : (processMod pp dis now env st m).completed
              = st.completed := by
            simp only [processMod, hu, Bool.false_eq_true, if_false, hdl,
              Bool.not_false, if_true]
          have ha1 : (processMod pp dis now env st m).attempted
              = st.attempted ++ [m.1] := by
            simp only [processMod, hu, Bool.false_eq_true, if_false, hdl,
              Bool.not_false, if_true]
          refine ⟨?_, ?_, ?_⟩
          · rw [ihf, hf1]
            simp [List.filter_cons, hsucc, hcause, List.append_assoc]
          · rw [ihc, hc1]
            simp [List.filter_cons, hsucc]
          · rw [iha, ha1]
            simp [List.filter_cons, bne, hu, List.append_assoc]
        · cases hex : (env m.1).extracted.isEmpty
          · -- success
            have hsucc : recSucceeds env m = true := by
              simp [recSucceeds, hdl, hu, bne, hex]
            have hf1 : (processMod pp dis now env st m).failed
                = st.failed := by
              simp only [processMod, hu, Bool.false_eq_true, if_false, hdl,
                Bool.not_true, hex]
            have hc1 : (processMod pp dis now env st m).completed
                = st.completed + 1 := by
              simp only [processMod, hu, Bool.false_eq_true, if_false, hdl,
                Bool.not_true, hex]
            have ha1 : (processMod pp dis now env st m).attempted
                = st.attempted ++ [m.1] := by
              simp only [processMod, hu, Bool.false_eq_true, if_false, hdl,
                Bool.not_true, hex]
            refine ⟨?_, ?_, ?_⟩
            · rw [ihf, hf1]
              simp [List.filter_cons, hsucc]
            · rw [ihc, hc1]
              simp only [List.filter_cons, hsucc, if_true]
              simp [Nat.add_assoc, Nat.add_comm 1]
            · rw [iha, ha1]
              simp [List.filter_cons, bne, hu, List.append_assoc]
          · -- nothing extracted
            have hsucc : recSucceeds env m = false := by
              simp [recSucceeds, hex]
            have hcause : failCause env m
                = "No files extracted from archive" := by
              simp [failCause, hu, hdl]
            have hf1 : (processMod pp dis now env st m).failed
                = st.failed ++ [(m.1, "No files extracted from archive")] := by
              simp only [processMod, hu, Bool.false_eq_true, if_false, hdl,
                Bool.not_true, hex, if_true]
            have hc1 : (processMod pp dis now env st m).completed
                = st.completed := by
              simp only [processMod, hu, Bool.false_eq_true, if_false, hdl,
                Bool.not_true, hex, if_true]
            have ha1 : (processMod pp dis now env st m).attempted
                = st.attempted ++ [m.1] := by
              simp only [processMod, hu, Bool.false_eq_true, if_false, hdl,
                Bool.not_true, hex, if_true]
            refine ⟨?_, ?_, ?_⟩
            · rw [ihf, hf1]
              simp [List.filter_cons, hsucc, hcause, List.append_assoc]
            · rw [ihc, hc1]
              simp [List.filter_cons, hsucc]
            · rw [iha, ha1]
              simp [List.filter_cons, bne, hu, List.append_assoc]
      · -- no URL
        have hsucc : recSucceeds env m = false := by
          simp [recSucceeds, bne, hu]
        have hcause : failCause env m = "No URL found" := by
          simp [failCause, hu]
        have hf1 : (processMod pp dis now env st m).failed
            = st.failed ++ [(m.1, "No URL found")] := by
          simp only [processMod, hu, if_true]
        have hc1 : (processMod pp dis now env st m).completed
            = st.completed := by
          simp only [processMod, hu, if_true]
        have ha1 : (processMod pp dis now env st m).attempted
            = st.attempted := by
          simp only [processMod, hu, if_true]
        refine ⟨?_, ?_, ?_⟩
        · rw [ihf, hf1]
          simp [List.filter_cons, hsucc, hcause, List.append_assoc]
        · rw [ihc, hc1]
          simp [List.filter_cons, hsucc]
        · rw [iha, ha1]
          simp [List.filter_cons, bne, hu]

theorem bulk_aux_db (pp : ℚ) (dis : List (String × String)) (now : Nat)
    (env : String → RecordEnv) :
    ∀ (l : List (String × ModRecord)) (st : BulkSt)
      (m : String × ModRecord) (f : String),
      m ∈ l →
      (l.map (·.1)).Nodup →
      (∀ m' ∈ l, m'.1 ≠ m.1 → f ∉ (env m'.1).extracted) →
      (m.2.url == "") = false → (env m.1).dlOk = true →
      (env m.1).extracted.isEmpty = false →
      (env m.1).extracted.Nodup → f ∈ (env m.1).extracted →
      dbFind (l.foldl (processMod pp dis now env) st).db f
        = some { m.2 with
                 local_name := f
                 updated_date := now
                 enabled := !((dis.find? (fun p => p.1 == m.1)).isSome) } := by
  intro l
  induction l with
  | nil => intro st m f hm; exact absurd hm (List.not_mem_nil m)
  | cons m₀ rest ih =>
      intro st m f hm hkeys hsep hurl hdl hex hnodup hf
      rw [List.map_cons] at hkeys
      have hkeys' := List.nodup_cons.mp hkeys
      by_cases hm0 : m₀ = m
      · subst hm0
        have hself := processMod_self pp dis now env st m₀ hurl hdl hex
          hnodup f hf
        have hrestkeys : ∀ m' ∈ rest, m'.1 ≠ m₀.1 := by
          intro m' hm' hc
          exact hkeys'.1 (hc ▸ List.mem_map_of_mem (·.1) hm')
        rw [List.foldl_cons,
          foldl_processMod_db_frame pp dis now env rest _ f
            (fun m' hm' =>
              hsep m' (List.mem_cons_of_mem m₀ hm') (hrestkeys m' hm'))]
        exact hself.1
      · have hmr : m ∈ rest := by
          rcases List.mem_cons.mp hm with h | h
          · exact absurd h.symm hm0
          · exact h
        rw [List.foldl_cons]
        exact ih (processMod pp dis now env st m₀) m f hmr hkeys'.2
          (fun m' hm' => hsep m' (List.mem_cons_of_mem m₀ hm'))
          hurl hdl hex hnodup hf

/-! ## C9 — bulk-update failure isolation and final save -/

/-- C9: in a bulk update, every record of the profile is examined: a
record's failure (empty URL, download error, empty extraction) is
recorded in `failed_mods` with its cause and the loop continues;
`download_mod` is invoked exactly for the records with a non-empty URL
(an empty-URL record is failed with no network access); the database is
saved exactly once, at the end; and (under non-clashing extracted file
names) each succeeded record's extracted file has its refreshed entry —
updated timestamp, same enabled flag — in the saved database. -/
theorem bulk_update_failure_isolation (db : DB) (fs : FS) (pname : String)
    (now : Nat) (env : String → RecordEnv) (m : String × ModRecord)
    (f : String)
    (hm : m ∈ db.filter (fun p => p.2.profile == pname))
    (hkeys : ((db.filter (fun p => p.2.profile == pname)).map (·.1)).Nodup)
    (hsucc : recSucceeds env m = true)
    (hf : f ∈ (env m.1).extracted)
    (hnodup : (env m.1).extracted.Nodup)
    (hsep : ∀ m' ∈ db.filter (fun p => p.2.profile == pname),
      m'.1 ≠ m.1 → f ∉ (env m'.1).extracted) :
    (check_updates db fs pname now env).failed
      = ((db.filter (fun p => p.2.profile == pname)).filter
          (fun x => !recSucceeds env x)).map (fun x => (x.1, failCause env x))
    ∧ (check_updates db fs pname now env).completed
      = ((db.filter (fun p => p.2.profile == pname)).filter
          (fun x => recSucceeds env x)).length
    ∧ (check_updates db fs pname now env).attempted
      = ((db.filter (fun p => p.2.profile == pname)).filter
          (fun x => x.2.url != "")).map (·.1)
    ∧ (check_updates db fs pname now env).saves = 1
    ∧ dbFind (check_updates db fs pname now env).db f
      = some { m.2 with local_name := f, updated_date := now } := by
  have hne : (db.filter (fun p => p.2.profile == pname)).isEmpty = false := by
    cases hmods : (db.filter (fun p => p.2.profile == pname)).isEmpty
    · rfl
    · rw [List.isEmpty_iff] at hmods
      rw [hmods] at hm
      exact absurd hm (List.not_mem_nil m)
  have hsplit : ((m.2.url != "") = true ∧ (env m.1).dlOk = true)
      ∧ (!(env m.1).extracted.isEmpty) = true := by
    simpa [recSucceeds, Bool.and_eq_true] using hsucc
  have hurl : (m.2.url == "") = false := by
    have := hsplit.1.1
    simpa [bne] using this
  have hdl : (env m.1).dlOk = true := hsplit.1.2
  have hex : (env m.1).extracted.isEmpty = false := by
    have := hsplit.2
    simpa using this
  obtain ⟨hacc1, hacc2, hacc3⟩ := bulk_accounting
    (100 / ((db.filter (fun p => p.2.profile == pname)).length : ℚ))
    (disabledModsOf (db.filter (fun p => p.2.profile == pname))) now env
    (db.filter (fun p => p.2.profile == pname))
    { db := db, fs := fs, completed := 0, failed := [], emitted := [0]
      attempted := [] }
  have hdb := bulk_aux_db
    (100 / ((db.filter (fun p => p.2.profile == pname)).length : ℚ))
    (disabledModsOf (db.filter (fun p => p.2.profile == pname))) now env
    (db.filter (fun p => p.2.profile == pname))
    { db := db, fs := fs, completed := 0, failed := [], emitted := [0]
      attempted := [] }
    m f hm hkeys hsep hurl hdl hex hnodup hf
  rw [disabledFind_isSome _ hkeys m hm, Bool.not_not] at hdb
  simp only [check_updates, hne, Bool.false_eq_true, if_false]
  exact ⟨by simpa using hacc1, by simpa using hacc2, by simpa using hacc3,
    by trivial, hdb⟩

/-- C9, witness: three records where the second one's download raises
(`resolver failed`) — two successes, one failure entry, one save, and
the first record's refreshed database entry. -/
theorem bulk_update_failure_isolation_witness :
    (check_updates
        [("m1.pak", mkRecord "m1.pak" "P" true "u"),
         ("m2.pak", mkRecord "m2.pak" "P" true "u"),
         ("m3.pak", mkRecord "m3.pak" "P" true "u")]
        [("P", "m1.pak"), ("P", "m2.pak"), ("P", "m3.pak")] "Pr" 5
        (fun mid => if mid == "m2.pak"
          then { envOk [] with dlOk := false, dlErr := "resolver failed" }
          else if mid == "m1.pak" then envOk ["m1.pak"]
          else envOk ["m3.pak"])).failed = [("m2.pak", "resolver failed")]
    ∧ (check_updates
        [("m1.pak", mkRecord "m1.pak" "P" true "u"),
         ("m2.pak", mkRecord "m2.pak" "P" true "u"),
         ("m3.pak", mkRecord "m3.pak" "P" true "u")]
        [("P", "m1.pak"), ("P", "m2.pak"), ("P", "m3.pak")] "Pr" 5
        (fun mid => if mid == "m2.pak"
          then { envOk [] with dlOk := false, dlErr := "resolver failed" }
          else if mid == "m1.pak" then envOk ["m1.pak"]
          else envOk ["m3.pak"])).completed = 2
    ∧ (check_updates
        [("m1.pak", mkRecord "m1.pak" "P" true "u"),
         ("m2.pak", mkRecord "m2.pak" "P" true "u"),
         ("m3.pak", mkRecord "m3.pak" "P" true "u")]
        [("P", "m1.pak"), ("P", "m2.pak"), ("P", "m3.pak")] "Pr" 5
        (fun mid => if mid == "m2.pak"
          then { envOk [] with dlOk := false, dlErr := "resolver failed" }
          else if mid == "m1.pak" then envOk ["m1.pak"]
          else envOk ["m3.pak"])).attempted = ["m1.pak", "m2.pak", "m3.pak"]
    ∧ (check_updates
        [("m1.pak", mkRecord "m1.pak" "P" true "u"),
         ("m2.pak", mkRecord "m2.pak" "P" true "u"),
         ("m3.pak", mkRecord "m3.pak" "P" true "u")]
        [("P", "m1.pak"), ("P", "m2.pak"), ("P", "m3.pak")] "Pr" 5
        (fun mid => if mid == "m2.pak"
          then { envOk [] with dlOk := false, dlErr := "resolver failed" }
          else if mid == "m1.pak" then envOk ["m1.pak"]
          else envOk ["m3.pak"])).saves = 1
    ∧ dbFind (check_updates
        [("m1.pak", mkRecord "m1.pak" "P" true "u"),
         ("m2.pak", mkRecord "m2.pak" "P" true "u"),
         ("m3.pak", mkRecord "m3.pak" "P" true "u")]
        [("P", "m1.pak"), ("P", "m2.pak"), ("P", "m3.pak")] "Pr" 5
        (fun mid => if mid == "m2.pak"
          then { envOk [] with dlOk := false, dlErr := "resolver failed" }
          else if mid == "m1.pak" then envOk ["m1.pak"]
          else envOk ["m3.pak"])).db "m1.pak"
      = some { mkRecord "m1.pak" "P" true "u" with updated_date := 5 } := by
  obtain ⟨h1, h2, h3, h4, h5⟩ := bulk_update_failure_isolation
    [("m1.pak", mkRecord "m1.pak" "P" true "u"),
     ("m2.pak", mkRecord "m2.pak" "P" true "u"),
     ("m3.pak", mkRecord "m3.pak" "P" true "u")]
    [("P", "m1.pak"), ("P", "m2.pak"), ("P", "m3.pak")] "Pr" 5
    (fun mid => if mid == "m2.pak"
      then { envOk [] with dlOk := false, dlErr := "resolver failed" }
      else if mid == "m1.pak" then envOk ["m1.pak"]
      else envOk ["m3.pak"])
    ("m1.pak", mkRecord "m1.pak" "P" true "u") "m1.pak"
    (by decide) (by decide) (by decide) (by decide) (by decide) (by decide)
  exact ⟨h1.trans (by decide), h2.trans (by decide), h3.trans (by decide),
    h4, h5.trans (by decide)⟩

/-! ## C8 — bulk update and the disabled state -/

/-- C8, counterexample: enabled record `xa.pak` and disabled record
`a.pak` both refresh successfully, but because file matching is by
containment, `a.pak`'s unconditional active-directory cleanup (lines
551-558) deletes `xa.pak`'s freshly extracted file.  After the batch,
`xa.pak` is marked `enabled=true` yet its file exists in neither the
profile directory nor the disabled subdirectory — the enabled record did
not "stay active". -/
theorem bulk_update_containment_counterexample :
    (check_updates
        [("xa.pak", mkRecord "xa.pak" "P" true "u"),
         ("a.pak", mkRecord "a.pak" "P" false "u")]
        [("P", "xa.pak"), ("P/.disabledmods", "a.pak")] "Pr" 5
        (fun mid => if mid == "xa.pak" then envOk ["xa.pak"]
          else envOk ["a.pak"])).failed = []
    ∧ (check_updates
        [("xa.pak", mkRecord "xa.pak" "P" true "u"),
         ("a.pak", mkRecord "a.pak" "P" false "u")]
        [("P", "xa.pak"), ("P/.disabledmods", "a.pak")] "Pr" 5
        (fun mid => if mid == "xa.pak" then envOk ["xa.pak"]
          else envOk ["a.pak"])).completed = 2
    ∧ dbFind (check_updates
        [("xa.pak", mkRecord "xa.pak" "P" true "u"),
         ("a.pak", mkRecord "a.pak" "P" false "u")]
        [("P", "xa.pak"), ("P/.disabledmods", "a.pak")] "Pr" 5
        (fun mid => if mid == "xa.pak" then envOk ["xa.pak"]
          else envOk ["a.pak"])).db "xa.pak"
      = some { mkRecord "xa.pak" "P" true "u" with updated_date := 5 }
    ∧ fsHas (check_updates
        [("xa.pak", mkRecord "xa.pak" "P" true "u"),
         ("a.pak", mkRecord "a.pak" "P" false "u")]
        [("P", "xa.pak"), ("P/.disabledmods", "a.pak")] "Pr" 5
        (fun mid => if mid == "xa.pak" then envOk ["xa.pak"]
          else envOk ["a.pak"])).fs "P" "xa.pak" = false
    ∧ fsHas (check_updates
        [("xa.pak", mkRecord "xa.pak" "P" true "u"),
         ("a.pak", mkRecord "a.pak" "P" false "u")]
        [("P", "xa.pak"), ("P/.disabledmods", "a.pak")] "Pr" 5
        (fun mid => if mid == "xa.pak" then envOk ["xa.pak"]
          else envOk ["a.pak"])).fs "P/.disabledmods" "xa.pak" = false := by
  decide

/-- C8 (amended): provided the records of the profile have
non-overlapping names (no other record's `localName` occurs in the
refreshed file's name by containment, and extracted file names do not
clash) and the relocation of a disabled record's fresh file succeeds,
the bulk update preserves each record's `enabled` flag: a record that
succeeds ends with a database entry carrying an updated timestamp and
its original flag, its refreshed file on the side matching the flag
(disabled subdirectory when `enabled=false`, profile directory when
`enabled=true`), and present in the profile directory iff it is
enabled. -/
theorem bulk_update_preserves_disabled_state (db : DB) (fs : FS)
    (pname : String) (now : Nat) (env : String → RecordEnv)
    (m : String × ModRecord) (f : String)
    (hm : m ∈ db.filter (fun p => p.2.profile == pname))
    (hkeys : ((db.filter (fun p => p.2.profile == pname)).map (·.1)).Nodup)
    (hsucc : recSucceeds env m = true)
    (hf : f ∈ (env m.1).extracted)
    (hnodup : (env m.1).extracted.Nodup)
    (hmove : moveEff (env m.1) = true)
    (hsep : ∀ m' ∈ db.filter (fun p => p.2.profile == pname),
      m'.1 ≠ m.1 → strContains f (m'.2.local_name) = false
        ∧ f ∉ (env m'.1).extracted) :
    dbFind (check_updates db fs pname now env).db f
      = some { m.2 with local_name := f, updated_date := now }
    ∧ fsHas (check_updates db fs pname now env).fs
        (if m.2.enabled then m.2.installed_path
         else disabledDirOf m.2.installed_path) f = true
    ∧ fsHas (check_updates db fs pname now env).fs
        m.2.installed_path f = m.2.enabled := by
  have hne : (db.filter (fun p => p.2.profile == pname)).isEmpty = false := by
    cases hmods : (db.filter (fun p => p.2.profile == pname)).isEmpty
    · rfl
    · rw [List.isEmpty_iff] at hmods
      rw [hmods] at hm
      exact absurd hm (List.not_mem_nil m)
  have hsplit : ((m.2.url != "") = true ∧ (env m.1).dlOk = true)
      ∧ (!(env m.1).extracted.isEmpty) = true := by
    simpa [recSucceeds, Bool.and_eq_true] using hsucc
  have hurl : (m.2.url == "") = false := by
    have := hsplit.1.1
    simpa [bne] using this
  have hdl : (env m.1).dlOk = true := hsplit.1.2
  have hex : (env m.1).extracted.isEmpty = false := by
    have := hsplit.2
    simpa using this
  have hsep' : ∀ m' ∈ db.filter (fun p => p.2.profile == pname),
      m'.1 ≠ m.1 →
      (∀ p ∈ disabledModsOf (db.filter (fun p => p.2.profile == pname)),
        p.1 = m'.1 → strContains f p.2 = false)
      ∧ strContains f (m'.2.local_name) = false
      ∧ f ∉ (env m'.1).extracted := by
    intro m' hm' hne'
    obtain ⟨hc, hnotin⟩ := hsep m' hm' hne'
    refine ⟨?_, hc, hnotin⟩
    intro p hp hpk
    obtain ⟨m'', hm'', hpe, _⟩ :=
      disabledModsOf_mem (db.filter (fun p => p.2.profile == pname)) p hp
    have hk : m''.1 ≠ m.1 := by
      intro hc
      apply hne'
      rw [hpe] at hpk
      rw [← hpk]
      exact hc
    have hc'' := (hsep m'' hm'' hk).1
    rw [hpe]
    exact hc''
  obtain ⟨haux1, haux2, haux3⟩ := bulk_aux_reflect
    (100 / ((db.filter (fun p => p.2.profile == pname)).length : ℚ))
    (disabledModsOf (db.filter (fun p => p.2.profile == pname))) now env
    (db.filter (fun p => p.2.profile == pname))
    { db := db, fs := fs, completed := 0, failed := [], emitted := [0]
      attempted := [] }
    m f hm hkeys hsep' hurl hdl hex hnodup hf
  rw [disabledFind_isSome _ hkeys m hm, Bool.not_not] at haux1
  rw [disabledFind_isSome _ hkeys m hm] at haux2 haux3
  simp only [check_updates, hne, Bool.false_eq_true, if_false]
  cases he : m.2.enabled
  · -- record was disabled
    rw [he] at haux1
    obtain ⟨ha, hb⟩ := haux2 (by rw [he]; rfl) hmove
    refine ⟨haux1, ?_, ?_⟩
    · simp only [Bool.false_eq_true, if_false]
      exact ha
    · exact hb
  · -- record was enabled
    rw [he] at haux1
    have hc := haux3 (by rw [he]; rfl)
    refine ⟨haux1, ?_, hc⟩
    simp only [if_true]
    exact hc

/-- C8, witness for the amended theorem: the spec's scenario — record A
(`a.pak`) enabled and record B (`b.pak`) disabled, both refresh
successfully; B's fresh file ends up in the disabled subdirectory, with
`enabled=false` and the new timestamp in its entry. -/
theorem bulk_update_preserves_disabled_state_witness :
    dbFind (check_updates
        [("a.pak", mkRecord "a.pak" "P" true "u"),
         ("b.pak", mkRecord "b.pak" "P" false "u")]
        [("P", "a.pak"), ("P/.disabledmods", "b.pak")] "Pr" 5
        (fun mid => if mid == "a.pak" then envOk ["a.pak"]
          else envOk ["b.pak"])).db "b.pak"
      = some { mkRecord "b.pak" "P" false "u" with updated_date := 5 }
    ∧ fsHas (check_updates
        [("a.pak", mkRecord "a.pak" "P" true "u"),
         ("b.pak", mkRecord "b.pak" "P" false "u")]
        [("P", "a.pak"), ("P/.disabledmods", "b.pak")] "Pr" 5
        (fun mid => if mid == "a.pak" then envOk ["a.pak"]
          else envOk ["b.pak"])).fs
        (if (mkRecord "b.pak" "P" false "u").enabled
         then (mkRecord "b.pak" "P" false "u").installed_path
         else disabledDirOf (mkRecord "b.pak" "P" false "u").installed_path)
        "b.pak" = true
    ∧ fsHas (check_updates
        [("a.pak", mkRecord "a.pak" "P" true "u"),
         ("b.pak", mkRecord "b.pak" "P" false "u")]
        [("P", "a.pak"), ("P/.disabledmods", "b.pak")] "Pr" 5
        (fun mid => if mid == "a.pak" then envOk ["a.pak"]
          else envOk ["b.pak"])).fs
        (mkRecord "b.pak" "P" false "u").installed_path "b.pak"
      = (mkRecord "b.pak" "P" false "u").enabled := by
  obtain ⟨h1, h2, h3⟩ := bulk_update_preserves_disabled_state
    [("a.pak", mkRecord "a.pak" "P" true "u"),
     ("b.pak", mkRecord "b.pak" "P" false "u")]
    [("P", "a.pak"), ("P/.disabledmods", "b.pak")] "Pr" 5
    (fun mid => if mid == "a.pak" then envOk ["a.pak"]
      else envOk ["b.pak"])
    ("b.pak", mkRecord "b.pak" "P" false "u") "b.pak"
    (by decide) (by decide) (by decide) (by decide) (by decide) (by decide)
    (by decide)
  exact ⟨h1.trans (by decide), h2, h3⟩

end ModManager
